import Mathlib

/-!
Shallow embedding of `src/maquina_refrescos.py` (the classes `Nodo` and
`AnalizadorSemantico`).  Python strings are lists of characters, the mutable
derivation tree is a pure inductive value, and every decoration step returns
the updated node together with the updated `errores_globales` list.

The parent back-reference `nodo.padre` is read by the source only inside the
`A` branches of `_decorar_arbol`, and always at a moment where the parent `C`
node's `saldo`/`refrescos_comprados` fields hold the values current for that
call (the seeded inherited attributes).  The embedding therefore passes those
two values (`padreSaldo`, `padreRefrescos`) explicitly to every recursive
decoration call; the root call passes `0, 0`, matching the
`if nodo.padre else 0` fallbacks of the source.

All source symbols (`P`, `C`, `A`, and the terminals including `ε`) are
one-character Python strings, so `simbolo` is a `Char`.
-/

namespace MaquinaRefrescos

/-- tipo field of a node: the source uses the strings "terminal" and
"no_terminal". -/
inductive Tipo where
  | terminal
  | noTerminal
deriving DecidableEq

/-- One derivation-tree vertex: class `Nodo` with its `__init__` fields
`simbolo`, `tipo`, `hijos`, and the semantic attributes `saldo`, `valido`,
`nivel`, `refrescos_comprados` (here `refrescos`) and `errores`. -/
inductive Nodo where
  | mk (simbolo : Char) (tipo : Tipo) (hijos : List Nodo) (saldo : Int)
      (valido : Bool) (nivel : Nat) (refrescos : Int) (errores : List String)

def Nodo.simbolo : Nodo → Char
  | .mk s _ _ _ _ _ _ _ => s

def Nodo.tipo : Nodo → Tipo
  | .mk _ t _ _ _ _ _ _ => t

def Nodo.hijos : Nodo → List Nodo
  | .mk _ _ h _ _ _ _ _ => h

def Nodo.saldo : Nodo → Int
  | .mk _ _ _ s _ _ _ _ => s

def Nodo.valido : Nodo → Bool
  | .mk _ _ _ _ v _ _ _ => v

def Nodo.nivel : Nodo → Nat
  | .mk _ _ _ _ _ n _ _ => n

def Nodo.refrescos : Nodo → Int
  | .mk _ _ _ _ _ _ r _ => r

def Nodo.errores : Nodo → List String
  | .mk _ _ _ _ _ _ _ e => e

@[simp]
theorem Nodo.simbolo_mk (s : Char) (t : Tipo) (h : List Nodo) (a : Int)
    (v : Bool) (nl : Nat) (r : Int) (e : List String) :
    (Nodo.mk s t h a v nl r e).simbolo = s := rfl

@[simp]
theorem Nodo.tipo_mk (s : Char) (t : Tipo) (h : List Nodo) (a : Int)
    (v : Bool) (nl : Nat) (r : Int) (e : List String) :
    (Nodo.mk s t h a v nl r e).tipo = t := rfl

@[simp]
theorem Nodo.hijos_mk (s : Char) (t : Tipo) (h : List Nodo) (a : Int)
    (v : Bool) (nl : Nat) (r : Int) (e : List String) :
    (Nodo.mk s t h a v nl r e).hijos = h := rfl

@[simp]
theorem Nodo.saldo_mk (s : Char) (t : Tipo) (h : List Nodo) (a : Int)
    (v : Bool) (nl : Nat) (r : Int) (e : List String) :
    (Nodo.mk s t h a v nl r e).saldo = a := rfl

@[simp]
theorem Nodo.valido_mk (s : Char) (t : Tipo) (h : List Nodo) (a : Int)
    (v : Bool) (nl : Nat) (r : Int) (e : List String) :
    (Nodo.mk s t h a v nl r e).valido = v := rfl

@[simp]
theorem Nodo.nivel_mk (s : Char) (t : Tipo) (h : List Nodo) (a : Int)
    (v : Bool) (nl : Nat) (r : Int) (e : List String) :
    (Nodo.mk s t h a v nl r e).nivel = nl := rfl

@[simp]
theorem Nodo.refrescos_mk (s : Char) (t : Tipo) (h : List Nodo) (a : Int)
    (v : Bool) (nl : Nat) (r : Int) (e : List String) :
    (Nodo.mk s t h a v nl r e).refrescos = r := rfl

@[simp]
theorem Nodo.errores_mk (s : Char) (t : Tipo) (h : List Nodo) (a : Int)
    (v : Bool) (nl : Nat) (r : Int) (e : List String) :
    (Nodo.mk s t h a v nl r e).errores = e := rfl

/-- Number of vertices of a tree; the termination measure for decoration
(the attribute fields carry no weight, so re-seeding a node keeps it). -/
def Nodo.peso : Nodo → Nat
  | .mk _ _ hijos _ _ _ _ _ => 1 + pesoL hijos
where pesoL : List Nodo → Nat
  | [] => 0
  | c :: r => Nodo.peso c + pesoL r

/-- A node as freshly constructed by `Nodo.__init__` (with the given children
already attached through `agregar_hijo`): `saldo = 0`, `valido = True`,
`nivel = 0`, `refrescos_comprados = 0`, `errores = []`. -/
def nodoNuevo (s : Char) (t : Tipo) (hijos : List Nodo) : Nodo :=
  .mk s t hijos 0 true 0 0 []

/-- Writing the inherited attributes into a not-yet-decorated chain node
(lines 216-217 of the source: `nodo_c.saldo = ...;
nodo_c.refrescos_comprados = ...`). -/
def seedNodo (n : Nodo) (s r : Int) : Nodo :=
  match n with
  | .mk simbolo tipo hijos _ valido nivel _ errores =>
      .mk simbolo tipo hijos s valido nivel r errores

/-! Diagnostic strings of the source, verbatim. -/

def msgDelimitadores : String :=
  "La cadena debe empezar con '\x7b' y terminar con '\x7d'"

def msgLlaves : String := "Llaves desbalanceadas"

def msgCaracter (c : Char) : String :=
  "Carácter inválido: '" ++ String.mk [c] ++ "'"

def msgNivelNodo (nivel : Nat) : String :=
  "Excede el límite de 3 niveles de anidación (nivel " ++ toString nivel ++ ")"

def msgNivelGlobal : String := "Excede el límite de 3 niveles de anidación"

def msgSaldo (saldo : Int) : String :=
  "Saldo insuficiente para comprar refresco (saldo: " ++ toString saldo ++
    ", necesario: 3)"

def msgRefrescos : String := "Excede el máximo de 3 refrescos por bloque"

def msgMonedas : String := "No hay monedas para devolver"

/-! Python string helpers. -/

/-- The ASCII whitespace characters stripped by Python's `str.strip()`. -/
def esEspacio (c : Char) : Bool :=
  c = ' ' || c = '\t' || c = '\n' || c = '\r' || c = '\x0b' || c = '\x0c'

/-- Python `str.strip()`: drop whitespace from both ends. -/
def strip (s : List Char) : List Char :=
  (s.dropWhile esEspacio).rdropWhile esEspacio

/-- The token characters of the grammar (`$`, `R`, `<`). -/
def esFicha (c : Char) : Bool := c = '$' || c = 'R' || c = '<'

/-! `AnalizadorSemantico._validar_sintaxis` (lines 57-87). -/

/-- The brace-balance scan of `_validar_sintaxis`: returns `none` as soon as
the counter dips below zero, otherwise the final counter value. -/
def nivelScan : List Char → Int → Option Int
  | [], n => some n
  | c :: r, n =>
      if c = '\x7b' then nivelScan r (n + 1)
      else if c = '\x7d' then
        if n - 1 < 0 then none else nivelScan r (n - 1)
      else nivelScan r n

/-- The character-set scan of `_validar_sintaxis`: the first character outside
`set('\x7b\x7d$R< ')`, if any. -/
def primerInvalido : List Char → Option Char
  | [] => none
  | c :: r =>
      if c = '\x7b' || c = '\x7d' || c = '$' || c = 'R' || c = '<' || c = ' '
      then primerInvalido r else some c

/-- `_validar_sintaxis`: result flag together with the diagnostics appended to
`errores_globales`.  The three checks run in source order, each failing fast
with exactly one message. -/
def validarSintaxis (cadena : List Char) : Bool × List String :=
  let c := strip cadena
  if ¬ (c.head? = some '\x7b' ∧ c.getLast? = some '\x7d') then
    (false, [msgDelimitadores])
  else
    match nivelScan c 0 with
    | none => (false, [msgLlaves])
    | some n =>
        if n ≠ 0 then (false, [msgLlaves])
        else
          match primerInvalido c with
          | some ch => (false, [msgCaracter ch])
          | none => (true, [])

/-! `AnalizadorSemantico._construir_arbol` / `_procesar_contenido`
(lines 89-172). -/

/-- The inner brace-matching scan of `_procesar_contenido` (lines 138-145):
starting after an opening brace with counter `nivel`, consume characters
until the counter returns to zero or the input ends; returns the consumed
part and the rest. -/
def escanear : List Char → Nat → List Char × List Char
  | [], _ => ([], [])
  | c :: r, nivel =>
      if nivel = 0 then ([], c :: r)
      else
        let nivel' := if c = '\x7b' then nivel + 1
          else if c = '\x7d' then nivel - 1 else nivel
        let par := escanear r nivel'
        (c :: par.1, par.2)

theorem escanear_append (s : List Char) (n : Nat) :
    (escanear s n).1 ++ (escanear s n).2 = s := by
  induction s generalizing n with
  | nil => simp [escanear]
  | cons c r ih =>
      by_cases h : n = 0
      · simp [escanear, h]
      · simp [escanear, h, ih]

theorem escanear_longitud (s : List Char) (n : Nat) :
    (escanear s n).1.length + (escanear s n).2.length = s.length := by
  have h := congrArg List.length (escanear_append s n)
  simpa using h

theorem escanear_interno_lt (s : List Char) :
    (escanear s 1).1.length - 1 < s.length + 1 := by
  have h := escanear_longitud s 1
  omega

theorem escanear_resto_lt (s : List Char) :
    (escanear s 1).2.length < s.length + 1 := by
  have h := escanear_longitud s 1
  omega

mutual

/-- `_procesar_contenido(nodo_c, contenido)`: the children attached to the
given `C` node.  The emptiness test on line 110 is on the raw string, before
any space skipping. -/
def procesarContenido (contenido : List Char) : List Nodo :=
  if contenido.isEmpty then [nodoNuevo 'ε' .terminal []]
  else procesarBucle contenido
termination_by (contenido.length, 1)

/-- The `while i < len(contenido)` loop of `_procesar_contenido`, acting on
the remaining substring `contenido[i:]`; returns the children accumulated on
the current `C` node.  Note the loop can run off the end over spaces, leaving
the current `C` node childless. -/
def procesarBucle : List Char → List Nodo
  | [] => []
  | c :: resto =>
      if c = ' ' then procesarBucle resto
      else if c = '$' || c = 'R' || c = '<' then
        let nodoA := nodoNuevo 'A' .noTerminal [nodoNuevo c .terminal []]
        if (strip resto).isEmpty then
          [nodoA, nodoNuevo 'C' .noTerminal [nodoNuevo 'ε' .terminal []]]
        else
          [nodoA, nodoNuevo 'C' .noTerminal (procesarBucle resto)]
      else if c = '\x7b' then
        -- bloque_completo = contenido[i:j] = c :: (escanear resto 1).1,
        -- contenido_interno = bloque_completo[1:-1]
        let par := escanear resto 1
        let interno := par.1.dropLast
        let nodoA := nodoNuevo 'A' .noTerminal
          [nodoNuevo '\x7b' .terminal [],
           nodoNuevo 'C' .noTerminal (procesarContenido interno),
           nodoNuevo '\x7d' .terminal []]
        if (strip par.2).isEmpty then
          [nodoA, nodoNuevo 'C' .noTerminal [nodoNuevo 'ε' .terminal []]]
        else
          [nodoA, nodoNuevo 'C' .noTerminal (procesarBucle par.2)]
      else
        -- any other character (only '\x7d' after validation): the A node and
        -- the next C node were already attached, and `i += 1` leaves the A
        -- node childless
        let nodoA := nodoNuevo 'A' .noTerminal []
        if (strip resto).isEmpty then
          [nodoA, nodoNuevo 'C' .noTerminal [nodoNuevo 'ε' .terminal []]]
        else
          [nodoA, nodoNuevo 'C' .noTerminal (procesarBucle resto)]
termination_by s => (s.length, 0)
decreasing_by
  all_goals simp_wf
  all_goals first
    | apply Prod.Lex.right
    | (apply Prod.Lex.left; omega)
    | (apply Prod.Lex.left
       first
         | exact escanear_interno_lt _
         | exact escanear_resto_lt _)

end

/-- `_construir_arbol(cadena)`: root `P → \x7b C \x7d`, the content being
`cadena[1:-1].strip()` of the raw (unstripped) input string. -/
def construirArbol (cadena : List Char) : Nodo :=
  let contenido := strip ((cadena.drop 1).dropLast)
  nodoNuevo 'P' .noTerminal
    [nodoNuevo '\x7b' .terminal [],
     nodoNuevo 'C' .noTerminal (procesarContenido contenido),
     nodoNuevo '\x7d' .terminal []]

/-! `AnalizadorSemantico._decorar_arbol` (lines 174-287). -/

theorem peso_seedNodo (n : Nodo) (s r : Int) : (seedNodo n s r).peso = n.peso := by
  cases n
  rfl

/-- `_decorar_arbol(nodo, nivel)`.  `padreSaldo`/`padreRefrescos` are the
parent node's current `saldo`/`refrescos_comprados` at call time (the values
every `nodo.padre.saldo if nodo.padre else 0` read yields); `globales` is
`self.errores_globales` before the call, and the second component of the
result is its value after the call.  The final "Decorar hijos restantes" loop
of the source (lines 283-287) is dead code — `hasattr(hijo, 'saldo')` is
always true because `__init__` sets `saldo` — and is therefore omitted. -/
theorem pesoL_mem {m : Nodo} :
    ∀ {l : List Nodo}, m ∈ l → m.peso ≤ Nodo.peso.pesoL l := by
  intro l h
  induction l with
  | nil => cases h
  | cons a r ih =>
      rcases List.mem_cons.1 h with h1 | h1
      · subst h1
        simp [Nodo.peso.pesoL]
      · have := ih h1
        simp [Nodo.peso.pesoL]
        omega

theorem peso_hijo {n m : Nodo} (h : m ∈ n.hijos) : m.peso < n.peso := by
  cases n with
  | mk s t hs sal v nl r e =>
      have h1 := pesoL_mem h
      simp only [Nodo.hijos] at h1
      simp only [Nodo.peso]
      omega

theorem peso_pos (n : Nodo) : 0 < n.peso := by
  cases n
  simp [Nodo.peso]

mutual

def decorar (n : Nodo) (nivel : Nat) (pSaldo pRef : Int)
    (globales : List String) : Nodo × List String :=
  if 3 < nivel then
    -- nesting-limit gate (lines 179-183): mark invalid and stop; the
    -- children are left untouched
    (.mk n.simbolo n.tipo n.hijos n.saldo false nivel n.refrescos
       (n.errores ++ [msgNivelNodo nivel]),
     globales ++ [msgNivelGlobal])
  else if n.simbolo = 'P' then decorarP n nivel globales
  else if n.simbolo = 'C' then decorarC n nivel globales
  else if n.simbolo = 'A' then decorarA n nivel pSaldo pRef globales
  else
    (.mk n.simbolo n.tipo n.hijos n.saldo n.valido nivel n.refrescos
       n.errores, globales)
termination_by (n.peso, 1)
decreasing_by
  all_goals first
    | (apply Prod.Lex.right <;> omega)
    | (apply Prod.Lex.left
       first
         | exact peso_hijo (by rw [hh]; simp)
         | (rw [peso_seedNodo]
            exact peso_hijo (by rw [hh]; simp)))

/-- The `nodo.simbolo == "P"` branch (lines 185-193): `P → \x7b C \x7d`
decorates `hijos[1]` at the same depth and copies its attributes. -/
def decorarP (n : Nodo) (nivel : Nat) (globales : List String) :
    Nodo × List String :=
  match hh : n.hijos with
  | h0 :: c :: resto =>
      let par := decorar c nivel n.saldo n.refrescos globales
      (.mk n.simbolo n.tipo (h0 :: par.1 :: resto) par.1.saldo par.1.valido
         nivel par.1.refrescos (n.errores ++ par.1.errores), par.2)
  | hijos =>
      (.mk n.simbolo n.tipo hijos n.saldo n.valido nivel n.refrescos
         n.errores, globales)
termination_by (n.peso, 0)
decreasing_by
  all_goals first
    | (apply Prod.Lex.right <;> omega)
    | (apply Prod.Lex.left
       first
         | exact peso_hijo (by rw [hh]; simp)
         | (rw [peso_seedNodo]
            exact peso_hijo (by rw [hh]; simp)))

/-- The `nodo.simbolo == "C"` branch (lines 195-224). -/
def decorarC (n : Nodo) (nivel : Nat) (globales : List String) :
    Nodo × List String :=
  match hh : n.hijos with
  | [h] =>
      if h.simbolo = 'ε' then
        -- C → ε: unconditional reset
        (.mk n.simbolo n.tipo [h] 0 true nivel 0 n.errores, globales)
      else
        (.mk n.simbolo n.tipo [h] n.saldo n.valido nivel n.refrescos
           n.errores, globales)
  | [a, c] =>
      -- C → A C: decorate A with this node's seeded fields as the before
      -- state, adopt its result, seed the tail C and decorate it, then take
      -- the final state from the tail
      let parA := decorar a nivel n.saldo n.refrescos globales
      let a' := parA.1
      let parC := decorar (seedNodo c a'.saldo a'.refrescos) nivel a'.saldo
        a'.refrescos parA.2
      let c' := parC.1
      (.mk n.simbolo n.tipo [a', c'] c'.saldo (a'.valido && c'.valido) nivel
         c'.refrescos (n.errores ++ a'.errores ++ c'.errores), parC.2)
  | hijos =>
      (.mk n.simbolo n.tipo hijos n.saldo n.valido nivel n.refrescos
         n.errores, globales)
termination_by (n.peso, 0)
decreasing_by
  all_goals first
    | (apply Prod.Lex.right <;> omega)
    | (apply Prod.Lex.left
       first
         | exact peso_hijo (by rw [hh]; simp)
         | (rw [peso_seedNodo]
            exact peso_hijo (by rw [hh]; simp)))

/-- The `nodo.simbolo == "A"` branch (lines 226-280). -/
def decorarA (n : Nodo) (nivel : Nat) (pSaldo pRef : Int)
    (globales : List String) : Nodo × List String :=
  match hh : n.hijos with
  | [h] =>
      if h.simbolo = '$' then
        -- insert coin
        (.mk n.simbolo n.tipo [h] (pSaldo + 1) true nivel pRef n.errores,
         globales)
      else if h.simbolo = 'R' then
        -- buy item: the balance check runs strictly before the quota check
        if pSaldo < 3 then
          (.mk n.simbolo n.tipo [h] pSaldo false nivel pRef
             (n.errores ++ [msgSaldo pSaldo]), globales)
        else if 3 ≤ pRef then
          (.mk n.simbolo n.tipo [h] pSaldo false nivel pRef
             (n.errores ++ [msgRefrescos]), globales)
        else
          (.mk n.simbolo n.tipo [h] (pSaldo - 3) true nivel (pRef + 1)
             n.errores, globales)
      else if h.simbolo = '<' then
        -- return coin
        if pSaldo < 1 then
          (.mk n.simbolo n.tipo [h] pSaldo false nivel pRef
             (n.errores ++ [msgMonedas]), globales)
        else
          (.mk n.simbolo n.tipo [h] (pSaldo - 1) true nivel pRef n.errores,
           globales)
      else
        (.mk n.simbolo n.tipo [h] n.saldo n.valido nivel n.refrescos
           n.errores, globales)
  | [l, ci, r] =>
      -- A → \x7b C \x7d: decorate the inner C one level deeper; the block
      -- is an isolated sub-scope, so this node keeps the enclosing before
      -- state and adopts only validity and errors
      let parC := decorar ci (nivel + 1) n.saldo n.refrescos globales
      let c' := parC.1
      (.mk n.simbolo n.tipo [l, c', r] pSaldo c'.valido nivel pRef
         (n.errores ++ c'.errores), parC.2)
  | hijos =>
      (.mk n.simbolo n.tipo hijos n.saldo n.valido nivel n.refrescos
         n.errores, globales)
termination_by (n.peso, 0)
decreasing_by
  all_goals first
    | (apply Prod.Lex.right <;> omega)
    | (apply Prod.Lex.left
       first
         | exact peso_hijo (by rw [hh]; simp)
         | (rw [peso_seedNodo]
            exact peso_hijo (by rw [hh]; simp)))

end

/-- The triple observable after `analizar_cadena`: the returned tree (absent
when syntax validation fails), the returned validity flag, and the
`errores_globales` attribute as the caller reads it after the call. -/
structure Resultado where
  arbol : Option Nodo
  esValida : Bool
  globales : List String

/-- `AnalizadorSemantico.analizar_cadena(cadena)` (lines 35-55).
`estadoPrevio` is the `errores_globales` attribute left over from earlier
calls on the same analyzer object; line 40 (`self.errores_globales = []`)
discards it before anything else happens. -/
def analizarCadena (estadoPrevio : List String) (cadena : List Char) :
    Resultado :=
  let _ := estadoPrevio
  let v := validarSintaxis cadena
  if v.1 = true then
    let raiz := construirArbol cadena
    let par := decorar raiz 1 0 0 v.2
    { arbol := some par.1, esValida := par.1.valido && par.2.isEmpty,
      globales := par.2 }
  else
    { arbol := none, esValida := false, globales := v.2 }

/-! Observation functions on trees, used to state the claims. -/

/-- The terminal-leaf token sequence of a (sub)tree, left to right, keeping
only the token symbols `$`, `R`, `<` (ignoring `\x7b`, `\x7d`, `ε` and
non-terminal symbols). -/
def tokensNodo : Nodo → List Char
  | .mk s _ [] _ _ _ _ _ => if esFicha s then [s] else []
  | .mk _ _ (h :: r) _ _ _ _ _ => tokensNodo h ++ tokensLista r
where tokensLista : List Nodo → List Char
  | [] => []
  | n :: r => tokensNodo n ++ tokensLista r

/-- The `errores` fields of every node of a tree, concatenated in preorder
(each node before its children, children left to right). -/
def erroresArbol : Nodo → List String
  | .mk _ _ h _ _ _ _ e => e ++ erroresLista h
where erroresLista : List Nodo → List String
  | [] => []
  | n :: r => erroresArbol n ++ erroresLista r

/-- The errors fields of the whole returned tree, `[]` when no tree was
returned. -/
def erroresDelArbol (r : Resultado) : List String :=
  match r.arbol with
  | none => []
  | some n => erroresArbol n

/-- Every node of the tree satisfies `0 ≤ saldo` and
`0 ≤ refrescos_comprados ≤ 3`. -/
def rangoOK : Nodo → Bool
  | .mk _ _ h saldo _ _ refrescos _ =>
      (decide (0 ≤ saldo) && decide (0 ≤ refrescos) && decide (refrescos ≤ 3))
        && rangoLista h
where rangoLista : List Nodo → Bool
  | [] => true
  | n :: r => rangoOK n && rangoLista r

/-- Some node of the tree is a `C` node without children. -/
def hayCVacio : Nodo → Bool
  | .mk s _ [] _ _ _ _ _ => s == 'C'
  | .mk _ _ (h :: r) _ _ _ _ _ => hayCVacio h || hayCVacioLista r
where hayCVacioLista : List Nodo → Bool
  | [] => false
  | n :: r => hayCVacio n || hayCVacioLista r

/-- How many nesting levels the decoration pass descends below the node's
own level: `A → \x7b C \x7d` adds one, following exactly the recursion
structure of `_decorar_arbol`. -/
def prof (n : Nodo) : Nat :=
  match n.simbolo, hh : n.hijos with
  | 'P', _ :: c :: _ => prof c
  | 'C', [a, c] => max (prof a) (prof c)
  | 'A', [_, ci, _] => 1 + prof ci
  | _, _ => 0
termination_by n.peso
decreasing_by
  all_goals exact peso_hijo (by rw [hh]; simp)

/-- How many nodes the decoration of this node at level `nivel` enters with
`nivel > 3` (each such entry appends one global nesting diagnostic). -/
def cuenta (n : Nodo) (nivel : Nat) : Nat :=
  if 3 < nivel then 1
  else
    match n.simbolo, hh : n.hijos with
    | 'P', _ :: c :: _ => cuenta c nivel
    | 'C', [a, c] => cuenta a nivel + cuenta c nivel
    | 'A', [_, ci, _] => cuenta ci (nivel + 1)
    | _, _ => 0
termination_by n.peso
decreasing_by
  all_goals exact peso_hijo (by rw [hh]; simp)

/-- The chain of `C` nodes hanging from this `C` node ends with an `ε`
child. -/
def terminaEps (n : Nodo) : Bool :=
  match n.simbolo, hh : n.hijos with
  | 'C', [h] => h.simbolo == 'ε'
  | 'C', [_, c] => terminaEps c
  | _, _ => false
termination_by n.peso
decreasing_by
  all_goals exact peso_hijo (by rw [hh]; simp)

/-- The brace depth of the string never dips below zero when scanned from
depth `n` and comes back to exactly zero at the end. -/
def balanceado : List Char → Nat → Bool
  | [], n => n == 0
  | c :: r, n =>
      if c = '\x7d' then
        match n with
        | 0 => false
        | m + 1 => balanceado r m
      else if c = '\x7b' then balanceado r (n + 1)
      else balanceado r n

mutual

/-- Well-formed shape of the children list of a `C` node built by
`_procesar_contenido`: a single `ε` leaf, nothing at all, or an `A`/`C`
pair whose members are recursively well formed. -/
def cadenaOK : List Nodo → Bool
  | [] => true
  | [h] => h.simbolo == 'ε'
  | [a, .mk cs _ ch _ _ _ _ _] =>
      accionOK a && (cs == 'C') && cadenaOK ch
  | _ => false

/-- Well-formed shape of an `A` node built by `_procesar_contenido`:
either at most one child (a terminal or nothing), or a
`\x7b C \x7d` triple with a recursively well-formed inner `C`. -/
def accionOK : Nodo → Bool
  | .mk 'A' _ [_, .mk cs _ ch _ _ _ _ _, _] _ _ _ _ _ =>
      (cs == 'C') && cadenaOK ch
  | .mk 'A' _ [] _ _ _ _ _ => true
  | .mk 'A' _ [_] _ _ _ _ _ => true
  | _ => false

end

/-! Basic lemmas about seeding and the observation functions. -/

@[simp]
theorem seedNodo_simbolo (n : Nodo) (x y : Int) :
    (seedNodo n x y).simbolo = n.simbolo := by
  cases n
  rfl

@[simp]
theorem seedNodo_hijos (n : Nodo) (x y : Int) :
    (seedNodo n x y).hijos = n.hijos := by
  cases n
  rfl

@[simp]
theorem seedNodo_saldo (n : Nodo) (x y : Int) : (seedNodo n x y).saldo = x := by
  cases n
  rfl

@[simp]
theorem seedNodo_refrescos (n : Nodo) (x y : Int) :
    (seedNodo n x y).refrescos = y := by
  cases n
  rfl

theorem tokensNodo_seed (n : Nodo) (x y : Int) :
    tokensNodo (seedNodo n x y) = tokensNodo n := by
  cases n with
  | mk s t h sal v nl r e =>
      cases h
      · rfl
      · rfl

theorem cuenta_seed (n : Nodo) (x y : Int) (niv : Nat) :
    cuenta (seedNodo n x y) niv = cuenta n niv := by
  rw [cuenta, cuenta, seedNodo_simbolo, seedNodo_hijos]

theorem prof_seed (n : Nodo) (x y : Int) :
    prof (seedNodo n x y) = prof n := by
  rw [prof, prof, seedNodo_simbolo, seedNodo_hijos]

theorem terminaEps_seed (n : Nodo) (x y : Int) :
    terminaEps (seedNodo n x y) = terminaEps n := by
  rw [terminaEps, terminaEps, seedNodo_simbolo, seedNodo_hijos]

/-! Lemmas about `_validar_sintaxis` and `analizar_cadena`. -/

theorem validar_casos (s : List Char) :
    validarSintaxis s = (true, []) ∨
      ((validarSintaxis s).1 = false ∧ (validarSintaxis s).2.length = 1) := by
  simp only [validarSintaxis]
  split
  · exact Or.inr ⟨rfl, rfl⟩
  · split
    · exact Or.inr ⟨rfl, rfl⟩
    · split
      · exact Or.inr ⟨rfl, rfl⟩
      · split
        · exact Or.inr ⟨rfl, rfl⟩
        · exact Or.inl rfl

theorem validar_ok_vacio (s : List Char) (h : (validarSintaxis s).1 = true) :
    validarSintaxis s = (true, []) := by
  rcases validar_casos s with h1 | ⟨h2, _⟩
  · exact h1
  · rw [h] at h2
    cases h2

theorem validar_estructura (s : List Char)
    (h : (validarSintaxis s).1 = true) :
    (strip s).head? = some '\x7b' ∧ (strip s).getLast? = some '\x7d' := by
  by_cases hd : ((strip s).head? = some '\x7b' ∧ (strip s).getLast? = some '\x7d')
  · exact hd
  · exfalso
    unfold validarSintaxis at h
    simp only [hd] at h
    simp at h

theorem analizar_ok (prev : List String) (s : List Char)
    (h : (validarSintaxis s).1 = true) :
    analizarCadena prev s =
      { arbol := some (decorar (construirArbol s) 1 0 0 []).1,
        esValida := (decorar (construirArbol s) 1 0 0 []).1.valido &&
          (decorar (construirArbol s) 1 0 0 []).2.isEmpty,
        globales := (decorar (construirArbol s) 1 0 0 []).2 } := by
  have hv := validar_ok_vacio s h
  simp [analizarCadena, hv]

theorem analizar_fallo (prev : List String) (s : List Char)
    (h : (validarSintaxis s).1 = false) :
    analizarCadena prev s =
      { arbol := none, esValida := false, globales := (validarSintaxis s).2 } := by
  simp [analizarCadena, h]

/-! Branch equations for `decorar`, used throughout the proofs below. -/

theorem decorar_limite (n : Nodo) (nivel : Nat) (pS pR : Int)
    (g : List String) (h : 3 < nivel) :
    decorar n nivel pS pR g =
      (.mk n.simbolo n.tipo n.hijos n.saldo false nivel n.refrescos
         (n.errores ++ [msgNivelNodo nivel]), g ++ [msgNivelGlobal]) := by
  rw [decorar]
  simp [h]

theorem decorar_eq_P (n : Nodo) (nivel : Nat) (pS pR : Int) (g : List String)
    (h : ¬ 3 < nivel) (hs : n.simbolo = 'P') :
    decorar n nivel pS pR g = decorarP n nivel g := by
  rw [decorar]
  simp [h, hs]

theorem decorar_eq_C (n : Nodo) (nivel : Nat) (pS pR : Int) (g : List String)
    (h : ¬ 3 < nivel) (hs : n.simbolo = 'C') :
    decorar n nivel pS pR g = decorarC n nivel g := by
  rw [decorar]
  simp [h, hs]

theorem decorar_eq_A (n : Nodo) (nivel : Nat) (pS pR : Int) (g : List String)
    (h : ¬ 3 < nivel) (hs : n.simbolo = 'A') :
    decorar n nivel pS pR g = decorarA n nivel pS pR g := by
  rw [decorar]
  simp [h, hs]

theorem decorar_eq_otro (n : Nodo) (nivel : Nat) (pS pR : Int)
    (g : List String) (h : ¬ 3 < nivel) (hP : ¬ n.simbolo = 'P')
    (hC : ¬ n.simbolo = 'C') (hA : ¬ n.simbolo = 'A') :
    decorar n nivel pS pR g =
      (.mk n.simbolo n.tipo n.hijos n.saldo n.valido nivel n.refrescos
         n.errores, g) := by
  rw [decorar]
  simp [h, hP, hC, hA]

theorem decorarP_cadena (n : Nodo) (nivel : Nat) (g : List String)
    (h0 c : Nodo) (resto : List Nodo) (hh : n.hijos = h0 :: c :: resto) :
    decorarP n nivel g =
      ((.mk n.simbolo n.tipo
         (h0 :: (decorar c nivel n.saldo n.refrescos g).1 :: resto)
         (decorar c nivel n.saldo n.refrescos g).1.saldo
         (decorar c nivel n.saldo n.refrescos g).1.valido nivel
         (decorar c nivel n.saldo n.refrescos g).1.refrescos
         (n.errores ++ (decorar c nivel n.saldo n.refrescos g).1.errores)),
       (decorar c nivel n.saldo n.refrescos g).2) := by
  rw [decorarP]
  split
  next l cc rr heq =>
    rw [hh] at heq
    cases heq
    rfl
  next hno =>
    exact absurd hh (hno h0 c resto)

theorem decorarP_corto (n : Nodo) (nivel : Nat) (g : List String)
    (hno : ∀ (h0 c : Nodo) (resto : List Nodo),
      n.hijos = h0 :: c :: resto → False) :
    decorarP n nivel g =
      (.mk n.simbolo n.tipo n.hijos n.saldo n.valido nivel n.refrescos
         n.errores, g) := by
  rw [decorarP]
  split
  next l cc rr heq => exact absurd heq (hno l cc rr)
  next => rfl

theorem decorarC_eps (n : Nodo) (nivel : Nat) (g : List String) (h0 : Nodo)
    (hh : n.hijos = [h0]) (heps : h0.simbolo = 'ε') :
    decorarC n nivel g =
      (.mk n.simbolo n.tipo [h0] 0 true nivel 0 n.errores, g) := by
  rw [decorarC]
  split
  next x heq =>
    rw [hh] at heq
    cases heq
    simp [heps]
  next a cc heq =>
    rw [hh] at heq
    cases heq
  next hno1 hno2 => exact absurd hh (hno1 h0)

theorem decorarC_uno (n : Nodo) (nivel : Nat) (g : List String) (h0 : Nodo)
    (hh : n.hijos = [h0]) (heps : ¬ h0.simbolo = 'ε') :
    decorarC n nivel g =
      (.mk n.simbolo n.tipo [h0] n.saldo n.valido nivel n.refrescos
         n.errores, g) := by
  rw [decorarC]
  split
  next x heq =>
    rw [hh] at heq
    cases heq
    simp [heps]
  next a cc heq =>
    rw [hh] at heq
    cases heq
  next hno1 hno2 => exact absurd hh (hno1 h0)

theorem decorarC_cadena (n : Nodo) (nivel : Nat) (g : List String)
    (a c : Nodo) (hh : n.hijos = [a, c]) :
    decorarC n nivel g =
      (let parA := decorar a nivel n.saldo n.refrescos g
       let a' := parA.1
       let parC := decorar (seedNodo c a'.saldo a'.refrescos) nivel a'.saldo
         a'.refrescos parA.2
       let c' := parC.1
       (.mk n.simbolo n.tipo [a', c'] c'.saldo (a'.valido && c'.valido) nivel
          c'.refrescos (n.errores ++ a'.errores ++ c'.errores), parC.2)) := by
  rw [decorarC]
  split
  next x heq =>
    rw [hh] at heq
    cases heq
  next aa cc heq =>
    rw [hh] at heq
    cases heq
    rfl
  next hno1 hno2 => exact absurd hh (hno2 a c)

theorem decorarC_otros (n : Nodo) (nivel : Nat) (g : List String)
    (hno1 : ∀ h0 : Nodo, n.hijos = [h0] → False)
    (hno2 : ∀ a c : Nodo, n.hijos = [a, c] → False) :
    decorarC n nivel g =
      (.mk n.simbolo n.tipo n.hijos n.saldo n.valido nivel n.refrescos
         n.errores, g) := by
  rw [decorarC]
  split
  next x heq => exact absurd heq (hno1 x)
  next aa cc heq => exact absurd heq (hno2 aa cc)
  next => rfl

theorem decorarA_uno (n : Nodo) (nivel : Nat) (pS pR : Int)
    (g : List String) (h0 : Nodo) (hh : n.hijos = [h0]) :
    decorarA n nivel pS pR g =
      (if h0.simbolo = '$' then
        (.mk n.simbolo n.tipo [h0] (pS + 1) true nivel pR n.errores, g)
       else if h0.simbolo = 'R' then
         if pS < 3 then
           (.mk n.simbolo n.tipo [h0] pS false nivel pR
              (n.errores ++ [msgSaldo pS]), g)
         else if 3 ≤ pR then
           (.mk n.simbolo n.tipo [h0] pS false nivel pR
              (n.errores ++ [msgRefrescos]), g)
         else
           (.mk n.simbolo n.tipo [h0] (pS - 3) true nivel (pR + 1)
              n.errores, g)
       else if h0.simbolo = '<' then
         if pS < 1 then
           (.mk n.simbolo n.tipo [h0] pS false nivel pR
              (n.errores ++ [msgMonedas]), g)
         else
           (.mk n.simbolo n.tipo [h0] (pS - 1) true nivel pR n.errores, g)
       else
         (.mk n.simbolo n.tipo [h0] n.saldo n.valido nivel n.refrescos
            n.errores, g)) := by
  rw [decorarA]
  split
  next x heq =>
    rw [hh] at heq
    cases heq
    rfl
  next l ci r heq =>
    rw [hh] at heq
    cases heq
  next hno1 hno2 => exact absurd hh (hno1 h0)

theorem decorarA_bloque (n : Nodo) (nivel : Nat) (pS pR : Int)
    (g : List String) (l ci r : Nodo) (hh : n.hijos = [l, ci, r]) :
    decorarA n nivel pS pR g =
      ((.mk n.simbolo n.tipo
         [l, (decorar ci (nivel + 1) n.saldo n.refrescos g).1, r] pS
         (decorar ci (nivel + 1) n.saldo n.refrescos g).1.valido nivel pR
         (n.errores ++ (decorar ci (nivel + 1) n.saldo n.refrescos g).1.errores)),
       (decorar ci (nivel + 1) n.saldo n.refrescos g).2) := by
  rw [decorarA]
  split
  next x heq =>
    rw [hh] at heq
    cases heq
  next l2 ci2 r2 heq =>
    rw [hh] at heq
    cases heq
    rfl
  next hno1 hno2 => exact absurd hh (hno2 l ci r)

theorem decorarA_otros (n : Nodo) (nivel : Nat) (pS pR : Int)
    (g : List String) (hno1 : ∀ h0 : Nodo, n.hijos = [h0] → False)
    (hno2 : ∀ l ci r : Nodo, n.hijos = [l, ci, r] → False) :
    decorarA n nivel pS pR g =
      (.mk n.simbolo n.tipo n.hijos n.saldo n.valido nivel n.refrescos
         n.errores, g) := by
  rw [decorarA]
  split
  next x heq => exact absurd heq (hno1 x)
  next l2 ci2 r2 heq => exact absurd heq (hno2 l2 ci2 r2)
  next => rfl

/-! Shape equations for `cuenta`, `prof` and `terminaEps`. -/

theorem cuenta_limite (n : Nodo) (niv : Nat) (h : 3 < niv) :
    cuenta n niv = 1 := by
  rw [cuenta]
  simp [h]

theorem cuenta_P (n : Nodo) (niv : Nat) (h : ¬ 3 < niv) (hs : n.simbolo = 'P')
    (h0 c : Nodo) (resto : List Nodo) (hh : n.hijos = h0 :: c :: resto) :
    cuenta n niv = cuenta c niv := by
  rw [cuenta]
  rw [if_neg h]
  split
  next c2 heq1 heq2 =>
    rw [hh] at heq2
    cases heq2
    rfl
  next a2 c2 heq1 heq2 =>
    rw [hs] at heq1
    exact absurd heq1 (by decide)
  next ci2 heq1 heq2 =>
    rw [hs] at heq1
    exact absurd heq1 (by decide)
  next hnoP hnoC hnoA =>
    exact (hnoP h0 c resto hs hh).elim

theorem cuenta_C2 (n : Nodo) (niv : Nat) (h : ¬ 3 < niv) (hs : n.simbolo = 'C')
    (a c : Nodo) (hh : n.hijos = [a, c]) :
    cuenta n niv = cuenta a niv + cuenta c niv := by
  rw [cuenta]
  rw [if_neg h]
  split
  next c2 heq1 heq2 =>
    rw [hs] at heq1
    exact absurd heq1 (by decide)
  next a2 c2 heq1 heq2 =>
    rw [hh] at heq2
    cases heq2
    rfl
  next ci2 heq1 heq2 =>
    rw [hs] at heq1
    exact absurd heq1 (by decide)
  next hnoP hnoC hnoA =>
    exact (hnoC a c hs hh).elim

theorem cuenta_A3 (n : Nodo) (niv : Nat) (h : ¬ 3 < niv) (hs : n.simbolo = 'A')
    (l ci r : Nodo) (hh : n.hijos = [l, ci, r]) :
    cuenta n niv = cuenta ci (niv + 1) := by
  rw [cuenta]
  rw [if_neg h]
  split
  next c2 heq1 heq2 =>
    rw [hs] at heq1
    exact absurd heq1 (by decide)
  next a2 c2 heq1 heq2 =>
    rw [hs] at heq1
    exact absurd heq1 (by decide)
  next ci2 heq1 heq2 =>
    rw [hh] at heq2
    cases heq2
    rfl
  next hnoP hnoC hnoA =>
    exact (hnoA l ci r hs hh).elim

theorem cuenta_cero (n : Nodo) (niv : Nat) (h : ¬ 3 < niv)
    (hnoP : ∀ (h0 c : Nodo) (resto : List Nodo),
      n.simbolo = 'P' → n.hijos = h0 :: c :: resto → False)
    (hnoC : ∀ (a c : Nodo), n.simbolo = 'C' → n.hijos = [a, c] → False)
    (hnoA : ∀ (l ci r : Nodo), n.simbolo = 'A' → n.hijos = [l, ci, r] → False) :
    cuenta n niv = 0 := by
  rw [cuenta]
  rw [if_neg h]
  split
  next c2 heq1 heq2 => exact (hnoP _ _ _ heq1 heq2).elim
  next a2 c2 heq1 heq2 => exact (hnoC _ _ heq1 heq2).elim
  next ci2 heq1 heq2 => exact (hnoA _ _ _ heq1 heq2).elim
  next => rfl


theorem prof_P (n : Nodo) (hs : n.simbolo = 'P') (h0 c : Nodo)
    (resto : List Nodo) (hh : n.hijos = h0 :: c :: resto) :
    prof n = prof c := by
  rw [prof]
  split
  next c2 heq1 heq2 =>
    rw [hh] at heq2
    cases heq2
    rfl
  next a2 c2 heq1 heq2 =>
    rw [hs] at heq1
    exact absurd heq1 (by decide)
  next ci2 heq1 heq2 =>
    rw [hs] at heq1
    exact absurd heq1 (by decide)
  next hnoP hnoC hnoA =>
    exact (hnoP h0 c resto hs hh).elim

theorem prof_C2 (n : Nodo) (hs : n.simbolo = 'C') (a c : Nodo)
    (hh : n.hijos = [a, c]) :
    prof n = max (prof a) (prof c) := by
  rw [prof]
  split
  next c2 heq1 heq2 =>
    rw [hs] at heq1
    exact absurd heq1 (by decide)
  next a2 c2 heq1 heq2 =>
    rw [hh] at heq2
    cases heq2
    rfl
  next ci2 heq1 heq2 =>
    rw [hs] at heq1
    exact absurd heq1 (by decide)
  next hnoP hnoC hnoA =>
    exact (hnoC a c hs hh).elim

theorem prof_A3 (n : Nodo) (hs : n.simbolo = 'A') (l ci r : Nodo)
    (hh : n.hijos = [l, ci, r]) :
    prof n = 1 + prof ci := by
  rw [prof]
  split
  next c2 heq1 heq2 =>
    rw [hs] at heq1
    exact absurd heq1 (by decide)
  next a2 c2 heq1 heq2 =>
    rw [hs] at heq1
    exact absurd heq1 (by decide)
  next ci2 heq1 heq2 =>
    rw [hh] at heq2
    cases heq2
    rfl
  next hnoP hnoC hnoA =>
    exact (hnoA l ci r hs hh).elim

theorem prof_cero (n : Nodo)
    (hnoP : ∀ (h0 c : Nodo) (resto : List Nodo),
      n.simbolo = 'P' → n.hijos = h0 :: c :: resto → False)
    (hnoC : ∀ (a c : Nodo), n.simbolo = 'C' → n.hijos = [a, c] → False)
    (hnoA : ∀ (l ci r : Nodo), n.simbolo = 'A' → n.hijos = [l, ci, r] → False) :
    prof n = 0 := by
  rw [prof]
  split
  next c2 heq1 heq2 => exact (hnoP _ _ _ heq1 heq2).elim
  next a2 c2 heq1 heq2 => exact (hnoC _ _ heq1 heq2).elim
  next ci2 heq1 heq2 => exact (hnoA _ _ _ heq1 heq2).elim
  next => rfl

theorem terminaEps_C1 (n : Nodo) (hs : n.simbolo = 'C') (h0 : Nodo)
    (hh : n.hijos = [h0]) :
    terminaEps n = (h0.simbolo == 'ε') := by
  rw [terminaEps]
  split
  next c2 heq1 heq2 =>
    rw [hh] at heq2
    cases heq2
    rfl
  next a2 c2 heq1 heq2 =>
    rw [hh] at heq2
    cases heq2
  next hno1 hno2 =>
    exact (hno1 h0 hs hh).elim

theorem terminaEps_C2 (n : Nodo) (hs : n.simbolo = 'C') (a c : Nodo)
    (hh : n.hijos = [a, c]) :
    terminaEps n = terminaEps c := by
  rw [terminaEps]
  split
  next c2 heq1 heq2 =>
    rw [hh] at heq2
    cases heq2
  next a2 c2 heq1 heq2 =>
    rw [hh] at heq2
    cases heq2
    rfl
  next hno1 hno2 =>
    exact (hno2 a c hs hh).elim

theorem terminaEps_falso (n : Nodo)
    (hno1 : ∀ h0 : Nodo, n.simbolo = 'C' → n.hijos = [h0] → False)
    (hno2 : ∀ a c : Nodo, n.simbolo = 'C' → n.hijos = [a, c] → False) :
    terminaEps n = false := by
  rw [terminaEps]
  split
  next c2 heq1 heq2 => exact (hno1 _ heq1 heq2).elim
  next a2 c2 heq1 heq2 => exact (hno2 _ _ heq1 heq2).elim
  next => rfl


/-! Decoration preserves the token leaves, and the global list grows by one
nesting message per node entered above the limit. -/

theorem peso_cota {s : Char} {t : Tipo} {hijos : List Nodo} {sal : Int}
    {v : Bool} {nl : Nat} {rf : Int} {e : List String} {k : Nat} {m : Nodo}
    (hn : (Nodo.mk s t hijos sal v nl rf e).peso ≤ k + 1) (hm : m ∈ hijos) :
    m.peso ≤ k := by
  have h1 := peso_hijo (n := .mk s t hijos sal v nl rf e) (m := m) (by simpa)
  omega

theorem decorar_tokens_globales :
    ∀ (k : Nat) (n : Nodo), n.peso ≤ k →
      ∀ (nivel : Nat) (pS pR : Int) (g : List String),
        tokensNodo (decorar n nivel pS pR g).1 = tokensNodo n ∧
        (decorar n nivel pS pR g).2 =
          g ++ List.replicate (cuenta n nivel) msgNivelGlobal := by
  intro k
  induction k with
  | zero =>
      intro n hn
      have := peso_pos n
      omega
  | succ k ih =>
      rintro ⟨s, t, hijos, sal, v, nl, rf, e⟩ hn nivel pS pR g
      by_cases h3 : 3 < nivel
      · rw [decorar_limite _ _ _ _ _ h3, cuenta_limite _ _ h3]
        exact ⟨by cases hijos <;> rfl, rfl⟩
      · by_cases hP : s = 'P'
        · subst hP
          rcases hijos with _ | ⟨h0, _ | ⟨c, resto⟩⟩
          · rw [decorar_eq_P _ _ _ _ _ h3 (by simp),
              decorarP_corto _ _ _ (by intro a b cc habs; simp at habs),
              cuenta_cero _ _ h3 (by intro a b cc _ habs; simp at habs)
                (by intro a b habs; simp at habs)
                (by intro a b cc habs habs2; simp at habs)]
            exact ⟨rfl, by simp⟩
          · rw [decorar_eq_P _ _ _ _ _ h3 (by simp),
              decorarP_corto _ _ _ (by intro a b cc habs; simp at habs),
              cuenta_cero _ _ h3 (by intro a b cc _ habs; simp at habs)
                (by intro a b habs; simp at habs)
                (by intro a b cc habs habs2; simp at habs)]
            exact ⟨rfl, by simp⟩
          · rw [decorar_eq_P _ _ _ _ _ h3 (by simp),
              decorarP_cadena _ _ _ h0 c resto (by simp),
              cuenta_P _ _ h3 (by simp) h0 c resto (by simp)]
            have hc : c.peso ≤ k := peso_cota hn (by simp)
            obtain ⟨iht, ihg⟩ := ih c hc nivel sal rf g
            simp only [Nodo.saldo_mk, Nodo.refrescos_mk, Nodo.simbolo_mk,
              Nodo.tipo_mk, Nodo.errores_mk]
            constructor
            · simp [tokensNodo, tokensNodo.tokensLista, iht]
            · exact ihg
        · by_cases hC : s = 'C'
          · subst hC
            rcases hijos with _ | ⟨a, _ | ⟨c, _ | ⟨d, resto⟩⟩⟩
            · rw [decorar_eq_C _ _ _ _ _ h3 (by simp),
                decorarC_otros _ _ _ (by intro x habs; simp at habs)
                  (by intro x y habs; simp at habs),
                cuenta_cero _ _ h3 (by intro x y z habs habs2; simp at habs)
                  (by intro x y _ habs; simp at habs)
                  (by intro x y z habs habs2; simp at habs)]
              exact ⟨rfl, by simp⟩
            · by_cases heps : a.simbolo = 'ε'
              · rw [decorar_eq_C _ _ _ _ _ h3 (by simp),
                  decorarC_eps _ _ _ a (by simp) heps,
                  cuenta_cero _ _ h3 (by intro x y z habs habs2; simp at habs)
                    (by intro x y _ habs; simp at habs)
                    (by intro x y z habs habs2; simp at habs)]
                exact ⟨rfl, by simp⟩
              · rw [decorar_eq_C _ _ _ _ _ h3 (by simp),
                  decorarC_uno _ _ _ a (by simp) heps,
                  cuenta_cero _ _ h3 (by intro x y z habs habs2; simp at habs)
                    (by intro x y _ habs; simp at habs)
                    (by intro x y z habs habs2; simp at habs)]
                exact ⟨rfl, by simp⟩
            · rw [decorar_eq_C _ _ _ _ _ h3 (by simp),
                decorarC_cadena _ _ _ a c (by simp),
                cuenta_C2 _ _ h3 (by simp) a c (by simp)]
              have ha : a.peso ≤ k := peso_cota hn (by simp)
              have hc : c.peso ≤ k := peso_cota hn (by simp)
              obtain ⟨ihta, ihga⟩ := ih a ha nivel sal rf g
              simp only [Nodo.saldo_mk, Nodo.refrescos_mk, Nodo.simbolo_mk,
                Nodo.tipo_mk, Nodo.errores_mk]
              have hcs : (seedNodo c (decorar a nivel sal rf g).1.saldo
                  (decorar a nivel sal rf g).1.refrescos).peso ≤ k := by
                rw [peso_seedNodo]
                exact hc
              obtain ⟨ihtc, ihgc⟩ := ih _ hcs nivel
                (decorar a nivel sal rf g).1.saldo
                (decorar a nivel sal rf g).1.refrescos
                (decorar a nivel sal rf g).2
              constructor
              · simp only [tokensNodo, tokensNodo.tokensLista]
                rw [ihta, ihtc, tokensNodo_seed]
              · rw [ihgc, cuenta_seed, ihga]
                rw [List.replicate_add, List.append_assoc]
            · rw [decorar_eq_C _ _ _ _ _ h3 (by simp),
                decorarC_otros _ _ _ (by intro x habs; simp at habs)
                  (by intro x y habs; simp at habs),
                cuenta_cero _ _ h3 (by intro x y z habs habs2; simp at habs)
                  (by intro x y _ habs; simp at habs)
                  (by intro x y z habs habs2; simp at habs)]
              exact ⟨rfl, by simp⟩
          · by_cases hA : s = 'A'
            · subst hA
              rcases hijos with _ | ⟨l, _ | ⟨ci, _ | ⟨r, _ | ⟨d, resto⟩⟩⟩⟩
              · rw [decorar_eq_A _ _ _ _ _ h3 (by simp),
                  decorarA_otros _ _ _ _ _ (by intro x habs; simp at habs)
                    (by intro x y z habs; simp at habs),
                  cuenta_cero _ _ h3 (by intro x y z habs habs2; simp at habs)
                    (by intro x y habs habs2; simp at habs)
                    (by intro x y z _ habs; simp at habs)]
                exact ⟨rfl, by simp⟩
              · rw [decorar_eq_A _ _ _ _ _ h3 (by simp),
                  decorarA_uno _ _ _ _ _ l (by simp),
                  cuenta_cero _ _ h3 (by intro x y z habs habs2; simp at habs)
                    (by intro x y habs habs2; simp at habs)
                    (by intro x y z _ habs; simp at habs)]
                constructor
                · split <;> (repeat' split) <;> rfl
                · split <;> (repeat' split) <;> simp
              · rw [decorar_eq_A _ _ _ _ _ h3 (by simp),
                  decorarA_otros _ _ _ _ _ (by intro x habs; simp at habs)
                    (by intro x y z habs; simp at habs),
                  cuenta_cero _ _ h3 (by intro x y z habs habs2; simp at habs)
                    (by intro x y habs habs2; simp at habs)
                    (by intro x y z _ habs; simp at habs)]
                exact ⟨rfl, by simp⟩
              · rw [decorar_eq_A _ _ _ _ _ h3 (by simp),
                  decorarA_bloque _ _ _ _ _ l ci r (by simp),
                  cuenta_A3 _ _ h3 (by simp) l ci r (by simp)]
                have hci : ci.peso ≤ k := peso_cota hn (by simp)
                obtain ⟨iht, ihg⟩ := ih ci hci (nivel + 1) sal rf g
                simp only [Nodo.saldo_mk, Nodo.refrescos_mk, Nodo.simbolo_mk,
                  Nodo.tipo_mk, Nodo.errores_mk]
                constructor
                · simp [tokensNodo, tokensNodo.tokensLista, iht]
                · exact ihg
              · rw [decorar_eq_A _ _ _ _ _ h3 (by simp),
                  decorarA_otros _ _ _ _ _ (by intro x habs; simp at habs)
                    (by intro x y z habs; simp at habs),
                  cuenta_cero _ _ h3 (by intro x y z habs habs2; simp at habs)
                    (by intro x y habs habs2; simp at habs)
                    (by intro x y z _ habs; simp at habs)]
                exact ⟨rfl, by simp⟩
            · rw [decorar_eq_otro _ _ _ _ _ h3 (by simpa) (by simpa) (by simpa),
                cuenta_cero _ _ h3 (by intro x y z habs habs2; exact hP (by simpa using habs))
                  (by intro x y habs habs2; exact hC (by simpa using habs))
                  (by intro x y z habs habs2; exact hA (by simpa using habs))]
              exact ⟨by cases hijos <;> rfl, by simp⟩


theorem tokensNodo_decorar (n : Nodo) (nivel : Nat) (pS pR : Int)
    (g : List String) :
    tokensNodo (decorar n nivel pS pR g).1 = tokensNodo n :=
  (decorar_tokens_globales n.peso n le_rfl nivel pS pR g).1

theorem globales_decorar (n : Nodo) (nivel : Nat) (pS pR : Int)
    (g : List String) :
    (decorar n nivel pS pR g).2 =
      g ++ List.replicate (cuenta n nivel) msgNivelGlobal :=
  (decorar_tokens_globales n.peso n le_rfl nivel pS pR g).2

/-! Decoration keeps every node's saldo nonnegative and its purchase count
between 0 and 3. -/

theorem rango_campos (m : Nodo) (h : rangoOK m = true) :
    0 ≤ m.saldo ∧ 0 ≤ m.refrescos ∧ m.refrescos ≤ 3 := by
  cases m with
  | mk s t hs sal v nl rf e =>
      simp [rangoOK, Bool.and_eq_true, decide_eq_true_eq] at h
      simp only [Nodo.saldo_mk, Nodo.refrescos_mk]
      tauto

theorem rango_seed (c : Nodo) (x y : Int) (hc : rangoOK c = true)
    (hx : 0 ≤ x) (hy : 0 ≤ y) (hy3 : y ≤ 3) :
    rangoOK (seedNodo c x y) = true := by
  cases c with
  | mk s t hs sal v nl rf e =>
      simp [rangoOK, seedNodo, Bool.and_eq_true, decide_eq_true_eq] at hc ⊢
      tauto

theorem decorar_rango :
    ∀ (k : Nat) (n : Nodo), n.peso ≤ k →
      ∀ (nivel : Nat) (pS pR : Int) (g : List String),
        rangoOK n = true → 0 ≤ pS → 0 ≤ pR → pR ≤ 3 →
        rangoOK (decorar n nivel pS pR g).1 = true := by
  intro k
  induction k with
  | zero =>
      intro n hn
      have := peso_pos n
      omega
  | succ k ih =>
      rintro ⟨s, t, hijos, sal, v, nl, rf, e⟩ hn nivel pS pR g hr hpS hpR hpR3
      simp only [rangoOK, Bool.and_eq_true, decide_eq_true_eq] at hr
      obtain ⟨⟨⟨hsal, hrf⟩, hrf3⟩, hlis⟩ := hr
      by_cases h3 : 3 < nivel
      · rw [decorar_limite _ _ _ _ _ h3]
        simp only [Nodo.simbolo_mk, Nodo.tipo_mk, Nodo.hijos_mk,
          Nodo.saldo_mk, Nodo.refrescos_mk, Nodo.errores_mk]
        simp [rangoOK, Bool.and_eq_true, decide_eq_true_eq]
        tauto
      · by_cases hP : s = 'P'
        · subst hP
          rcases hijos with _ | ⟨h0, _ | ⟨c, resto⟩⟩
          · rw [decorar_eq_P _ _ _ _ _ h3 (by simp),
              decorarP_corto _ _ _ (by intro a b cc habs; simp at habs)]
            simp [rangoOK, Bool.and_eq_true, decide_eq_true_eq]
            tauto
          · rw [decorar_eq_P _ _ _ _ _ h3 (by simp),
              decorarP_corto _ _ _ (by intro a b cc habs; simp at habs)]
            simp [rangoOK, Bool.and_eq_true, decide_eq_true_eq] at hlis ⊢
            tauto
          · rw [decorar_eq_P _ _ _ _ _ h3 (by simp),
              decorarP_cadena _ _ _ h0 c resto (by simp)]
            simp only [Nodo.saldo_mk, Nodo.refrescos_mk, Nodo.simbolo_mk,
              Nodo.tipo_mk, Nodo.errores_mk]
            simp only [rangoOK.rangoLista, Bool.and_eq_true] at hlis
            obtain ⟨hh0, hc, hresto⟩ := hlis
            have hcp : c.peso ≤ k := peso_cota hn (by simp)
            have ihc := ih c hcp nivel sal rf g hc hsal hrf hrf3
            have hcampos := rango_campos _ ihc
            have h1 := hcampos.1
            have h2 := hcampos.2.1
            have h3b := hcampos.2.2
            simp [rangoOK, rangoOK.rangoLista, Bool.and_eq_true,
              decide_eq_true_eq]
            tauto
        · by_cases hC : s = 'C'
          · subst hC
            rcases hijos with _ | ⟨a, _ | ⟨c, _ | ⟨d, resto⟩⟩⟩
            · rw [decorar_eq_C _ _ _ _ _ h3 (by simp),
                decorarC_otros _ _ _ (by intro x habs; simp at habs)
                  (by intro x y habs; simp at habs)]
              simp [rangoOK, Bool.and_eq_true, decide_eq_true_eq]
              tauto
            · by_cases heps : a.simbolo = 'ε'
              · rw [decorar_eq_C _ _ _ _ _ h3 (by simp),
                  decorarC_eps _ _ _ a (by simp) heps]
                simp [rangoOK, rangoOK.rangoLista, Bool.and_eq_true,
                  decide_eq_true_eq] at hlis ⊢
                tauto
              · rw [decorar_eq_C _ _ _ _ _ h3 (by simp),
                  decorarC_uno _ _ _ a (by simp) heps]
                simp [rangoOK, rangoOK.rangoLista, Bool.and_eq_true,
                  decide_eq_true_eq] at hlis ⊢
                tauto
            · rw [decorar_eq_C _ _ _ _ _ h3 (by simp),
                decorarC_cadena _ _ _ a c (by simp)]
              simp only [Nodo.saldo_mk, Nodo.refrescos_mk, Nodo.simbolo_mk,
                Nodo.tipo_mk, Nodo.errores_mk]
              simp only [rangoOK.rangoLista, Bool.and_eq_true] at hlis
              obtain ⟨ha, hc, -⟩ := hlis
              have hap : a.peso ≤ k := peso_cota hn (by simp)
              have hcp : c.peso ≤ k := peso_cota hn (by simp)
              have iha := ih a hap nivel sal rf g ha hsal hrf hrf3
              have hacampos := rango_campos _ iha
              have hsc : rangoOK (seedNodo c (decorar a nivel sal rf g).1.saldo
                  (decorar a nivel sal rf g).1.refrescos) = true :=
                rango_seed _ _ _ hc hacampos.1 hacampos.2.1 hacampos.2.2
              have hscp : (seedNodo c (decorar a nivel sal rf g).1.saldo
                  (decorar a nivel sal rf g).1.refrescos).peso ≤ k := by
                rw [peso_seedNodo]
                exact hcp
              have ihc := ih _ hscp nivel (decorar a nivel sal rf g).1.saldo
                (decorar a nivel sal rf g).1.refrescos
                (decorar a nivel sal rf g).2 hsc hacampos.1 hacampos.2.1
                hacampos.2.2
              have hccampos := rango_campos _ ihc
              have h1 := hccampos.1
              have h2 := hccampos.2.1
              have h3b := hccampos.2.2
              simp [rangoOK, rangoOK.rangoLista, Bool.and_eq_true,
                decide_eq_true_eq]
              tauto
            · rw [decorar_eq_C _ _ _ _ _ h3 (by simp),
                decorarC_otros _ _ _ (by intro x habs; simp at habs)
                  (by intro x y habs; simp at habs)]
              simp [rangoOK, rangoOK.rangoLista, Bool.and_eq_true,
                decide_eq_true_eq] at hlis ⊢
              tauto
          · by_cases hA : s = 'A'
            · subst hA
              rcases hijos with _ | ⟨l, _ | ⟨ci, _ | ⟨r, _ | ⟨d, resto⟩⟩⟩⟩
              · rw [decorar_eq_A _ _ _ _ _ h3 (by simp),
                  decorarA_otros _ _ _ _ _ (by intro x habs; simp at habs)
                    (by intro x y z habs; simp at habs)]
                simp [rangoOK, Bool.and_eq_true, decide_eq_true_eq]
                tauto
              · rw [decorar_eq_A _ _ _ _ _ h3 (by simp),
                  decorarA_uno _ _ _ _ _ l (by simp)]
                simp only [rangoOK.rangoLista, Bool.and_eq_true] at hlis
                obtain ⟨hl, -⟩ := hlis
                split <;> (repeat' split) <;>
                  (simp [rangoOK, rangoOK.rangoLista, Bool.and_eq_true,
                     decide_eq_true_eq, hl]
                   try omega)
              · rw [decorar_eq_A _ _ _ _ _ h3 (by simp),
                  decorarA_otros _ _ _ _ _ (by intro x habs; simp at habs)
                    (by intro x y z habs; simp at habs)]
                simp [rangoOK, rangoOK.rangoLista, Bool.and_eq_true,
                  decide_eq_true_eq] at hlis ⊢
                tauto
              · rw [decorar_eq_A _ _ _ _ _ h3 (by simp),
                  decorarA_bloque _ _ _ _ _ l ci r (by simp)]
                simp only [Nodo.saldo_mk, Nodo.refrescos_mk, Nodo.simbolo_mk,
                  Nodo.tipo_mk, Nodo.errores_mk]
                simp only [rangoOK.rangoLista, Bool.and_eq_true] at hlis
                obtain ⟨hlr, hcir, hrr, -⟩ := hlis
                have hcip : ci.peso ≤ k := peso_cota hn (by simp)
                have ihci := ih ci hcip (nivel + 1) sal rf g hcir hsal hrf hrf3
                simp [rangoOK, rangoOK.rangoLista, Bool.and_eq_true,
                  decide_eq_true_eq]
                tauto
              · rw [decorar_eq_A _ _ _ _ _ h3 (by simp),
                  decorarA_otros _ _ _ _ _ (by intro x habs; simp at habs)
                    (by intro x y z habs; simp at habs)]
                simp [rangoOK, rangoOK.rangoLista, Bool.and_eq_true,
                  decide_eq_true_eq] at hlis ⊢
                tauto
            · rw [decorar_eq_otro _ _ _ _ _ h3 (by simpa) (by simpa)
                (by simpa)]
              simp [rangoOK, Bool.and_eq_true, decide_eq_true_eq] at hlis ⊢
              tauto


/-! The `C → ε` reset propagates: a chain ending in `ε` reports saldo 0. -/

theorem decorar_eps_saldo :
    ∀ (k : Nat) (n : Nodo), n.peso ≤ k →
      ∀ (nivel : Nat) (pS pR : Int) (g : List String),
        terminaEps n = true → ¬ 3 < nivel →
        ((decorar n nivel pS pR g).1).saldo = 0 := by
  intro k
  induction k with
  | zero =>
      intro n hn
      have := peso_pos n
      omega
  | succ k ih =>
      rintro ⟨s, t, hijos, sal, v, nl, rf, e⟩ hn nivel pS pR g heps h3
      by_cases hC : s = 'C'
      · subst hC
        rcases hijos with _ | ⟨a, _ | ⟨c, _ | ⟨d, resto⟩⟩⟩
        · rw [terminaEps_falso _ (by intro x _ habs; simp at habs)
            (by intro x y _ habs; simp at habs)] at heps
          cases heps
        · rw [terminaEps_C1 _ (by simp) a (by simp)] at heps
          have ha : a.simbolo = 'ε' := by simpa using heps
          rw [decorar_eq_C _ _ _ _ _ h3 (by simp),
            decorarC_eps _ _ _ a (by simp) ha]
          simp
        · rw [terminaEps_C2 _ (by simp) a c (by simp)] at heps
          rw [decorar_eq_C _ _ _ _ _ h3 (by simp),
            decorarC_cadena _ _ _ a c (by simp)]
          simp only [Nodo.saldo_mk, Nodo.refrescos_mk]
          have hcp : (seedNodo c (decorar a nivel
              (Nodo.mk 'C' t [a, c] sal v nl rf e).saldo
              (Nodo.mk 'C' t [a, c] sal v nl rf e).refrescos g).1.saldo
              (decorar a nivel (Nodo.mk 'C' t [a, c] sal v nl rf e).saldo
              (Nodo.mk 'C' t [a, c] sal v nl rf e).refrescos g).1.refrescos).peso ≤ k := by
            rw [peso_seedNodo]
            exact peso_cota hn (by simp)
          have := ih _ hcp nivel
          rw [terminaEps_seed] at this
          exact this _ _ _ heps h3
        · rw [terminaEps_falso _ (by intro x _ habs; simp at habs)
            (by intro x y _ habs; simp at habs)] at heps
          cases heps
      · rw [terminaEps_falso _ (by intro x habs _; exact hC (by simpa using habs))
          (by intro x y habs _; exact hC (by simpa using habs))] at heps
        cases heps


/-! A block nested beyond the limit forces at least one global diagnostic. -/

theorem cuenta_pos :
    ∀ (k : Nat) (n : Nodo), n.peso ≤ k →
      ∀ nivel : Nat, 3 < nivel + prof n → 0 < cuenta n nivel := by
  intro k
  induction k with
  | zero =>
      intro n hn
      have := peso_pos n
      omega
  | succ k ih =>
      rintro ⟨s, t, hijos, sal, v, nl, rf, e⟩ hn nivel hprof
      by_cases h3 : 3 < nivel
      · rw [cuenta_limite _ _ h3]
        omega
      · by_cases hP : s = 'P'
        · subst hP
          rcases hijos with _ | ⟨h0, _ | ⟨c, resto⟩⟩
          · rw [prof_cero _ (by intro a b cc _ habs; simp at habs)
              (by intro a b _ habs; simp at habs)
              (by intro a b cc _ habs; simp at habs)] at hprof
            omega
          · rw [prof_cero _ (by intro a b cc _ habs; simp at habs)
              (by intro a b _ habs; simp at habs)
              (by intro a b cc _ habs; simp at habs)] at hprof
            omega
          · rw [prof_P _ (by simp) h0 c resto (by simp)] at hprof
            rw [cuenta_P _ _ h3 (by simp) h0 c resto (by simp)]
            exact ih c (peso_cota hn (by simp)) nivel hprof
        · by_cases hC : s = 'C'
          · subst hC
            rcases hijos with _ | ⟨a, _ | ⟨c, _ | ⟨d, resto⟩⟩⟩
            · rw [prof_cero _ (by intro x y z habs _; simp at habs)
                (by intro x y _ habs; simp at habs)
                (by intro x y z habs _; simp at habs)] at hprof
              omega
            · rw [prof_cero _ (by intro x y z habs _; simp at habs)
                (by intro x y _ habs; simp at habs)
                (by intro x y z habs _; simp at habs)] at hprof
              omega
            · rw [prof_C2 _ (by simp) a c (by simp)] at hprof
              rw [cuenta_C2 _ _ h3 (by simp) a c (by simp)]
              by_cases hord : prof a ≤ prof c
              · have hc := ih c (peso_cota hn (by simp)) nivel (by omega)
                omega
              · have ha := ih a (peso_cota hn (by simp)) nivel (by omega)
                omega
            · rw [prof_cero _ (by intro x y z habs _; simp at habs)
                (by intro x y _ habs; simp at habs)
                (by intro x y z habs _; simp at habs)] at hprof
              omega
          · by_cases hA : s = 'A'
            · subst hA
              rcases hijos with _ | ⟨l, _ | ⟨ci, _ | ⟨r, _ | ⟨d, resto⟩⟩⟩⟩
              · rw [prof_cero _ (by intro x y z habs _; simp at habs)
                  (by intro x y habs _; simp at habs)
                  (by intro x y z _ habs; simp at habs)] at hprof
                omega
              · rw [prof_cero _ (by intro x y z habs _; simp at habs)
                  (by intro x y habs _; simp at habs)
                  (by intro x y z _ habs; simp at habs)] at hprof
                omega
              · rw [prof_cero _ (by intro x y z habs _; simp at habs)
                  (by intro x y habs _; simp at habs)
                  (by intro x y z _ habs; simp at habs)] at hprof
                omega
              · rw [prof_A3 _ (by simp) l ci r (by simp)] at hprof
                rw [cuenta_A3 _ _ h3 (by simp) l ci r (by simp)]
                exact ih ci (peso_cota hn (by simp)) (nivel + 1) (by omega)
              · rw [prof_cero _ (by intro x y z habs _; simp at habs)
                  (by intro x y habs _; simp at habs)
                  (by intro x y z _ habs; simp at habs)] at hprof
                omega
            · rw [prof_cero _ (by intro x y z habs _; exact hP (by simpa using habs))
                (by intro x y habs _; exact hC (by simpa using habs))
                (by intro x y z habs _; exact hA (by simpa using habs))] at hprof
              omega


/-! When the scanned text is brace-balanced, the inner scan finds its
matching closing brace. -/

theorem escanear_cero (s : List Char) : escanear s 0 = ([], s) := by
  cases s with
  | nil => rfl
  | cons c r => simp [escanear]

theorem escanear_cerrado (s : List Char) :
    ∀ n : Nat, balanceado s (n + 1) = true →
      ∃ a, (escanear s (n + 1)).1 = a ++ ['\x7d'] ∧
        balanceado a n = true ∧ balanceado (escanear s (n + 1)).2 0 = true := by
  induction s with
  | nil =>
      intro n h
      simp [balanceado] at h
  | cons c r ih =>
      intro n h
      by_cases hc : c = '\x7d'
      · subst hc
        simp only [balanceado, if_pos rfl] at h
        cases n with
        | zero =>
            refine ⟨[], ?_, rfl, ?_⟩
            · simp [escanear, escanear_cero]
            · simp [escanear, escanear_cero]
              exact h
        | succ m =>
            obtain ⟨a, ha1, ha2, ha3⟩ := ih m h
            refine ⟨'\x7d' :: a, ?_, ?_, ?_⟩
            · simp [escanear, ha1]
            · simp only [balanceado, if_pos rfl]
              exact ha2
            · simpa [escanear] using ha3
      · by_cases hb : c = '\x7b'
        · subst hb
          simp [balanceado] at h
          obtain ⟨a, ha1, ha2, ha3⟩ := ih (n + 1) h
          refine ⟨'\x7b' :: a, ?_, ?_, ?_⟩
          · simp [escanear, ha1]
          · simpa [balanceado] using ha2
          · simpa [escanear] using ha3
        · simp [balanceado, hb, hc] at h
          obtain ⟨a, ha1, ha2, ha3⟩ := ih n h
          refine ⟨c :: a, ?_, ?_, ?_⟩
          · simp [escanear, hb, hc, ha1]
          · simpa [balanceado, hb, hc] using ha2
          · simpa [escanear, hb, hc] using ha3


/-! Python strip never removes token characters, and the first and last
characters of a validated string are never tokens. -/

theorem espacio_no_ficha (c : Char) (h : esEspacio c = true) :
    esFicha c = false := by
  simp [esEspacio] at h
  rcases h with ((((h | h) | h) | h) | h) | h <;> subst h <;> decide

theorem filtrar_dropWhile (l : List Char) :
    (l.dropWhile esEspacio).filter esFicha = l.filter esFicha := by
  induction l with
  | nil => rfl
  | cons c r ih =>
      by_cases h : esEspacio c
      · rw [List.dropWhile_cons_of_pos h, ih, List.filter_cons,
          espacio_no_ficha c h]
        simp
      · rw [List.dropWhile_cons_of_neg h]

theorem filtrar_rdropWhile (l : List Char) :
    (l.rdropWhile esEspacio).filter esFicha = l.filter esFicha := by
  rw [List.rdropWhile, List.filter_reverse, filtrar_dropWhile,
    ← List.filter_reverse, List.reverse_reverse]

theorem filtrar_strip (s : List Char) :
    (strip s).filter esFicha = s.filter esFicha := by
  rw [strip, filtrar_rdropWhile, filtrar_dropWhile]

theorem strip_vacio_filtrar (s : List Char) (h : (strip s).isEmpty = true) :
    s.filter esFicha = [] := by
  rw [← filtrar_strip]
  rw [List.isEmpty_iff] at h
  rw [h]
  rfl

theorem strip_cons_espacio (c : Char) (r : List Char)
    (h : esEspacio c = true) : strip (c :: r) = strip r := by
  rw [strip, strip, List.dropWhile_cons_of_pos h]

theorem head?_dropWhile_falso (p : Char → Bool) (l : List Char) (c : Char)
    (h : (l.dropWhile p).head? = some c) : p c = false := by
  induction l with
  | nil => cases h
  | cons a r ih =>
      by_cases hp : p a
      · rw [List.dropWhile_cons_of_pos hp] at h
        exact ih h
      · rw [List.dropWhile_cons_of_neg hp] at h
        cases h
        simpa using hp

theorem dropWhile_de_cabeza (p : Char → Bool) (l : List Char)
    (h : ∀ c, l.head? = some c → p c = false) : l.dropWhile p = l := by
  cases l with
  | nil => rfl
  | cons a r =>
      rw [List.dropWhile_cons_of_neg]
      simp [h a rfl]

theorem head?_rdropWhile (p : Char → Bool) (l : List Char) (c : Char)
    (h : (l.rdropWhile p).head? = some c) : l.head? = some c := by
  obtain ⟨u, hu⟩ := List.rdropWhile_prefix p l
  cases hr : l.rdropWhile p with
  | nil => rw [hr] at h; cases h
  | cons x xs =>
      rw [hr] at h hu
      cases h
      rw [← hu]
      rfl

theorem strip_idem (s : List Char) : strip (strip s) = strip s := by
  rw [strip, strip]
  rw [dropWhile_de_cabeza esEspacio _ (fun c hc =>
    head?_dropWhile_falso esEspacio s c (head?_rdropWhile esEspacio _ c hc))]
  exact List.rdropWhile_idempotent esEspacio _

theorem rdrop_mas_rtake (p : Char → Bool) (l : List Char) :
    l.rdropWhile p ++ l.rtakeWhile p = l := by
  rw [List.rdropWhile, List.rtakeWhile, ← List.reverse_append,
    List.takeWhile_append_dropWhile, List.reverse_reverse]

theorem cabeza_no_ficha (s : List Char)
    (hne : strip s ≠ []) (hc0 : ∀ c, (strip s).head? = some c → esFicha c = false) :
    ∀ c, s.head? = some c → esFicha c = false := by
  intro c hc
  cases ht : List.takeWhile esEspacio s with
  | cons x xs =>
      have hx : esEspacio x = true :=
        List.mem_takeWhile_imp (x := x) (by rw [ht]; simp)
      have hsx : s.head? = some x := by
        conv at hc => rw [← List.takeWhile_append_dropWhile esEspacio s]
        rw [← List.takeWhile_append_dropWhile esEspacio s, ht]
        rfl
      rw [hsx] at hc
      cases hc
      exact espacio_no_ficha _ hx
  | nil =>
      have hs : s.dropWhile esEspacio = s := by
        have h2 := List.takeWhile_append_dropWhile esEspacio s
        rw [ht] at h2
        simpa using h2
      have hstrip : strip s = List.rdropWhile esEspacio s := by rw [strip, hs]
      apply hc0
      rw [hstrip]
      cases hr : List.rdropWhile esEspacio s with
      | nil => rw [hstrip, hr] at hne; cases hne rfl
      | cons x xs =>
          obtain ⟨u, hu⟩ := List.rdropWhile_prefix esEspacio s
          rw [hr] at hu
          rw [← hu] at hc
          cases hc
          rfl

theorem getLast_de_sufijo (u t s : List Char) (hu : u ++ t = s)
    (htne : t ≠ []) : s.getLast? = t.getLast? := by
  rw [← hu, List.getLast?_append]
  cases hln : t.getLast? with
  | none =>
      rw [List.getLast?_eq_none_iff] at hln
      exact absurd hln htne
  | some x => rfl

theorem ultimo_no_ficha (s : List Char)
    (hne : strip s ≠ [])
    (hc0 : ∀ c, (strip s).getLast? = some c → esFicha c = false) :
    ∀ c, s.getLast? = some c → esFicha c = false := by
  intro c hc
  obtain ⟨u, hu⟩ := List.dropWhile_suffix (l := s) esEspacio
  have htne : List.dropWhile esEspacio s ≠ [] := by
    intro h0
    rw [strip, h0] at hne
    exact hne rfl
  have hlast : s.getLast? = (List.dropWhile esEspacio s).getLast? :=
    getLast_de_sufijo u _ s hu htne
  cases hrt : List.rtakeWhile esEspacio (List.dropWhile esEspacio s) with
  | nil =>
      have h2 := rdrop_mas_rtake esEspacio (List.dropWhile esEspacio s)
      rw [hrt, List.append_nil] at h2
      apply hc0
      rw [strip, h2, ← hlast]
      exact hc
  | cons x xs =>
      have h2 := rdrop_mas_rtake esEspacio (List.dropWhile esEspacio s)
      rw [hrt] at h2
      have hxl : (List.dropWhile esEspacio s).getLast? = (x :: xs).getLast? :=
        getLast_de_sufijo _ _ _ h2 (by simp)
      rw [hlast, hxl] at hc
      have hmem : c ∈ x :: xs := by
        obtain ⟨hne2, hcx⟩ := List.mem_getLast?_eq_getLast
          (show c ∈ (x :: xs).getLast? from hc)
        rw [hcx]
        exact List.getLast_mem hne2
      have hxe : esEspacio c = true :=
        List.mem_rtakeWhile_imp (x := c)
          (l := List.dropWhile esEspacio s) (by rw [hrt]; exact hmem)
      exact espacio_no_ficha _ hxe

theorem filtrar_cola (s : List Char)
    (h : ∀ c, s.head? = some c → esFicha c = false) :
    (s.drop 1).filter esFicha = s.filter esFicha := by
  cases s with
  | nil => rfl
  | cons c r =>
      rw [List.filter_cons, h c rfl]
      simp

theorem filtrar_sin_ultimo (s : List Char)
    (h : ∀ c, s.getLast? = some c → esFicha c = false) :
    s.dropLast.filter esFicha = s.filter esFicha := by
  rcases List.eq_nil_or_concat s with rfl | ⟨l, b, rfl⟩
  · rfl
  · rw [List.concat_eq_append, List.dropLast_concat, List.filter_append,
      List.filter_cons, h b (by rw [List.concat_eq_append] at *; exact List.getLast?_concat l)]
    simp


/-! Branch equations for `_procesar_contenido`. -/

theorem bucle_nil : procesarBucle [] = [] := by rw [procesarBucle]

theorem bucle_espacio (r : List Char) :
    procesarBucle (' ' :: r) = procesarBucle r := by
  rw [procesarBucle]
  simp

theorem bucle_ficha (c : Char) (r : List Char)
    (h : c = '$' ∨ c = 'R' ∨ c = '<') :
    procesarBucle (c :: r) =
      [nodoNuevo 'A' .noTerminal [nodoNuevo c .terminal []],
       nodoNuevo 'C' .noTerminal
         (if (strip r).isEmpty then [nodoNuevo 'ε' .terminal []]
          else procesarBucle r)] := by
  have hne : ¬ c = ' ' := by rcases h with h | h | h <;> subst h <;> decide
  rw [procesarBucle]
  by_cases hs : (strip r).isEmpty = true <;>
    rcases h with h | h | h <;> subst h <;> simp [hs]

theorem bucle_bloque (r : List Char) :
    procesarBucle ('\x7b' :: r) =
      [nodoNuevo 'A' .noTerminal
         [nodoNuevo '\x7b' .terminal [],
          nodoNuevo 'C' .noTerminal
            (procesarContenido (escanear r 1).1.dropLast),
          nodoNuevo '\x7d' .terminal []],
       nodoNuevo 'C' .noTerminal
         (if (strip (escanear r 1).2).isEmpty
          then [nodoNuevo 'ε' .terminal []]
          else procesarBucle (escanear r 1).2)] := by
  rw [procesarBucle]
  by_cases hs : (strip (escanear r 1).2).isEmpty = true <;> simp [hs]

theorem bucle_otro (c : Char) (r : List Char) (h1 : ¬ c = ' ')
    (h2 : ¬ c = '$') (h3 : ¬ c = 'R') (h4 : ¬ c = '<') (h5 : ¬ c = '\x7b') :
    procesarBucle (c :: r) =
      [nodoNuevo 'A' .noTerminal [],
       nodoNuevo 'C' .noTerminal
         (if (strip r).isEmpty then [nodoNuevo 'ε' .terminal []]
          else procesarBucle r)] := by
  rw [procesarBucle]
  by_cases hs : (strip r).isEmpty = true <;> simp [h1, h2, h3, h4, h5, hs]

theorem contenido_eq (s : List Char) :
    procesarContenido s =
      if s.isEmpty then [nodoNuevo 'ε' .terminal []] else procesarBucle s := by
  rw [procesarContenido]

/-- `tokensNodo` of a non-token node is the token list of its children. -/
theorem tokens_nodo_lista (s : Char) (t : Tipo) (l : List Nodo) (a : Int)
    (v : Bool) (nl : Nat) (r : Int) (e : List String)
    (h : esFicha s = false) :
    tokensNodo (.mk s t l a v nl r e) = tokensNodo.tokensLista l := by
  cases l with
  | nil => simp [tokensNodo, tokensNodo.tokensLista, h]
  | cons x xs => simp [tokensNodo, tokensNodo.tokensLista]

theorem tokens_nodo_C (t : Tipo) (l : List Nodo) (a : Int) (v : Bool)
    (nl : Nat) (r : Int) (e : List String) :
    tokensNodo (.mk 'C' t l a v nl r e) = tokensNodo.tokensLista l :=
  tokens_nodo_lista 'C' t l a v nl r e (by decide)

theorem tokens_nodo_A (t : Tipo) (l : List Nodo) (a : Int) (v : Bool)
    (nl : Nat) (r : Int) (e : List String) :
    tokensNodo (.mk 'A' t l a v nl r e) = tokensNodo.tokensLista l :=
  tokens_nodo_lista 'A' t l a v nl r e (by decide)

theorem tokens_hoja_abre (t : Tipo) (a : Int) (v : Bool) (nl : Nat)
    (r : Int) (e : List String) :
    tokensNodo (.mk '\x7b' t [] a v nl r e) = [] := rfl

theorem tokens_hoja_cierra (t : Tipo) (a : Int) (v : Bool) (nl : Nat)
    (r : Int) (e : List String) :
    tokensNodo (.mk '\x7d' t [] a v nl r e) = [] := rfl

theorem tokens_hoja_eps (t : Tipo) (a : Int) (v : Bool) (nl : Nat)
    (r : Int) (e : List String) :
    tokensNodo (.mk 'ε' t [] a v nl r e) = [] := rfl

theorem tokens_hoja_ficha (c : Char) (t : Tipo) (a : Int) (v : Bool)
    (nl : Nat) (r : Int) (e : List String) (h : esFicha c = true) :
    tokensNodo (.mk c t [] a v nl r e) = [c] := by
  simp [tokensNodo, h]

theorem tokens_construccion :
    ∀ (N : Nat) (s : List Char), s.length ≤ N → balanceado s 0 = true →
      tokensNodo.tokensLista (procesarBucle s) = s.filter esFicha ∧
      tokensNodo.tokensLista (procesarContenido s) = s.filter esFicha := by
  intro N
  induction N with
  | zero =>
      intro s hl hbal
      have hs : s = [] := List.length_eq_zero.1 (by omega)
      subst hs
      refine ⟨by rw [bucle_nil]; rfl, ?_⟩
      rw [contenido_eq]
      simp [tokensNodo.tokensLista, nodoNuevo, tokens_hoja_eps]
  | succ N ih =>
      intro s hl hbal
      have hcont : tokensNodo.tokensLista (procesarBucle s) = s.filter esFicha →
          tokensNodo.tokensLista (procesarContenido s) = s.filter esFicha := by
        intro hb
        rw [contenido_eq]
        by_cases he : s.isEmpty = true
        · rw [List.isEmpty_iff] at he
          subst he
          simp [tokensNodo.tokensLista, nodoNuevo, tokens_hoja_eps]
        · simp [he, hb]
      cases s with
      | nil =>
          refine ⟨by rw [bucle_nil]; rfl, ?_⟩
          rw [contenido_eq]
          simp [tokensNodo.tokensLista, nodoNuevo, tokens_hoja_eps]
      | cons c r =>
          have hlr : r.length ≤ N := by simpa using hl
          by_cases hesp : c = ' '
          · subst hesp
            have hbal2 : balanceado r 0 = true := by
              simpa [balanceado] using hbal
            have hb := (ih r hlr hbal2).1
            have hres : tokensNodo.tokensLista (procesarBucle (' ' :: r)) =
                (' ' :: r).filter esFicha := by
              rw [bucle_espacio, List.filter_cons]
              have : esFicha ' ' = false := by decide
              simp [this, hb]
            exact ⟨hres, hcont hres⟩
          · by_cases hficha : c = '$' ∨ c = 'R' ∨ c = '<'
            · have hbal2 : balanceado r 0 = true := by
                have hnb : ¬ c = '\x7d' := by
                  rcases hficha with h | h | h <;> subst h <;> decide
                have hnb2 : ¬ c = '\x7b' := by
                  rcases hficha with h | h | h <;> subst h <;> decide
                simpa [balanceado, hnb, hnb2] using hbal
              have hfc : esFicha c = true := by
                rcases hficha with h | h | h <;> subst h <;> decide
              have hbr : tokensNodo.tokensLista (procesarBucle r) =
                  r.filter esFicha := (ih r hlr hbal2).1
              have hres : tokensNodo.tokensLista (procesarBucle (c :: r)) =
                  (c :: r).filter esFicha := by
                rw [bucle_ficha c r hficha, List.filter_cons]
                by_cases hs : (strip r).isEmpty = true
                · have hfr : r.filter esFicha = [] := strip_vacio_filtrar r hs
                  simp [tokensNodo.tokensLista, nodoNuevo, tokens_nodo_C,
                    tokens_nodo_A, tokens_hoja_eps, tokens_hoja_ficha, hfc,
                    hs, hfr]
                · simp [tokensNodo.tokensLista, nodoNuevo, tokens_nodo_C,
                    tokens_nodo_A, tokens_hoja_eps, tokens_hoja_ficha, hfc,
                    hs, hbr]
              exact ⟨hres, hcont hres⟩
            · by_cases hbl : c = '\x7b'
              · subst hbl
                have hbal1 : balanceado r 1 = true := by
                  simpa [balanceado] using hbal
                obtain ⟨a, ha1, ha2, ha3⟩ := escanear_cerrado r 0 hbal1
                have hlen := escanear_longitud r 1
                have hla : a.length + 1 = (escanear r 1).1.length := by
                  rw [ha1]
                  simp
                have hinterno : (escanear r 1).1.dropLast = a := by
                  rw [ha1]
                  exact List.dropLast_concat
                have hlai : a.length ≤ N := by omega
                have hlr2 : (escanear r 1).2.length ≤ N := by omega
                have hca := (ih a hlai ha2).2
                have hfr : r.filter esFicha =
                    a.filter esFicha ++ ((escanear r 1).2).filter esFicha := by
                  conv_lhs => rw [← escanear_append r 1]
                  rw [List.filter_append, ha1, List.filter_append]
                  have : esFicha '\x7d' = false := by decide
                  simp [List.filter_cons, this]
                have hffc : esFicha '\x7b' = false := by decide
                have hres : tokensNodo.tokensLista (procesarBucle ('\x7b' :: r)) =
                    ('\x7b' :: r).filter esFicha := by
                  rw [bucle_bloque, hinterno, List.filter_cons]
                  by_cases hs : (strip (escanear r 1).2).isEmpty = true
                  · have hfr2 : ((escanear r 1).2).filter esFicha = [] :=
                      strip_vacio_filtrar _ hs
                    simp [tokensNodo.tokensLista, nodoNuevo, tokens_nodo_C,
                      tokens_nodo_A, tokens_hoja_eps, tokens_hoja_abre,
                      tokens_hoja_cierra, hffc, hs, hca, hfr, hfr2]
                  · have hbr := (ih _ hlr2 ha3).1
                    simp [tokensNodo.tokensLista, nodoNuevo, tokens_nodo_C,
                      tokens_nodo_A, tokens_hoja_eps, tokens_hoja_abre,
                      tokens_hoja_cierra, hffc, hs, hca, hfr, hbr]
                exact ⟨hres, hcont hres⟩
              · by_cases hcier : c = '\x7d'
                · subst hcier
                  simp [balanceado] at hbal
                · have hbal2 : balanceado r 0 = true := by
                    simpa [balanceado, hbl, hcier] using hbal
                  have hfc : esFicha c = false := by
                    cases hcc : esFicha c
                    · rfl
                    · exfalso
                      apply hficha
                      have := hcc
                      simp [esFicha] at this
                      tauto
                  have hbr : tokensNodo.tokensLista (procesarBucle r) =
                      r.filter esFicha := (ih r hlr hbal2).1
                  have hres : tokensNodo.tokensLista (procesarBucle (c :: r)) =
                      (c :: r).filter esFicha := by
                    rw [bucle_otro c r hesp (by tauto) (by tauto) (by tauto)
                      hbl, List.filter_cons]
                    by_cases hs : (strip r).isEmpty = true
                    · have hfr : r.filter esFicha = [] := strip_vacio_filtrar r hs
                      simp [tokensNodo.tokensLista, nodoNuevo, tokens_nodo_C,
                        tokens_nodo_A, tokens_hoja_eps, hfc, hs, hfr]
                    · simp [tokensNodo.tokensLista, nodoNuevo, tokens_nodo_C,
                        tokens_nodo_A, tokens_hoja_eps, hfc, hs, hbr]
                  exact ⟨hres, hcont hres⟩


theorem terminaEps_mk1 (t : Tipo) (h0 : Nodo) (sal : Int) (v : Bool)
    (nl : Nat) (rf : Int) (e : List String) :
    terminaEps (.mk 'C' t [h0] sal v nl rf e) = (h0.simbolo == 'ε') :=
  terminaEps_C1 (.mk 'C' t [h0] sal v nl rf e) (by simp) h0 (by simp)

theorem terminaEps_mk2 (t : Tipo) (a c : Nodo) (sal : Int) (v : Bool)
    (nl : Nat) (rf : Int) (e : List String) :
    terminaEps (.mk 'C' t [a, c] sal v nl rf e) = terminaEps c :=
  terminaEps_C2 (.mk 'C' t [a, c] sal v nl rf e) (by simp) a c (by simp)

theorem forma_cadena :
    ∀ (N : Nat) (s : List Char), s.length ≤ N →
      (strip s).isEmpty = false →
      terminaEps (nodoNuevo 'C' .noTerminal (procesarBucle s)) = true := by
  intro N
  induction N with
  | zero =>
      intro s hl hs
      have h0 : s = [] := List.length_eq_zero.1 (by omega)
      subst h0
      simp [strip, List.rdropWhile] at hs
  | succ N ih =>
      intro s hl hs
      cases s with
      | nil => simp [strip, List.rdropWhile] at hs
      | cons c r =>
          have hlr : r.length ≤ N := by simpa using hl
          by_cases hesp : c = ' '
          · subst hesp
            rw [bucle_espacio]
            rw [strip_cons_espacio _ _ (by decide)] at hs
            exact ih r hlr hs
          · have hfin : ∀ (nodoA : Nodo) (resto2 : List Char),
                resto2.length ≤ N →
                terminaEps (nodoNuevo 'C' .noTerminal
                  [nodoA, nodoNuevo 'C' .noTerminal
                    (if (strip resto2).isEmpty then [nodoNuevo 'ε' .terminal []]
                     else procesarBucle resto2)]) = true := by
              intro nodoA resto2 hres
              simp only [nodoNuevo]
              rw [terminaEps_mk2]
              by_cases hv : (strip resto2).isEmpty = true
              · rw [if_pos hv, terminaEps_mk1]
                simp
              · rw [if_neg hv]
                have h2 := ih resto2 hres (by simpa using hv)
                simpa [nodoNuevo] using h2
            by_cases hficha : c = '$' ∨ c = 'R' ∨ c = '<'
            · rw [bucle_ficha c r hficha]
              exact hfin _ r hlr
            · by_cases hbl : c = '\x7b'
              · subst hbl
                rw [bucle_bloque]
                have hlen := escanear_longitud r 1
                exact hfin _ _ (by omega)
              · rw [bucle_otro c r hesp (by tauto) (by tauto) (by tauto) hbl]
                exact hfin _ r hlr

theorem cadena_ok_construccion :
    ∀ (N : Nat) (s : List Char), s.length ≤ N →
      cadenaOK (procesarBucle s) = true ∧
      cadenaOK (procesarContenido s) = true ∧
      (procesarBucle s = [] → (strip s).isEmpty = true) := by
  intro N
  induction N with
  | zero =>
      intro s hl
      have h0 : s = [] := List.length_eq_zero.1 (by omega)
      subst h0
      refine ⟨by rw [bucle_nil]; rfl, ?_, ?_⟩
      · rw [contenido_eq]
        simp [cadenaOK, nodoNuevo]
      · intro _
        simp [strip, List.rdropWhile]
  | succ N ih =>
      intro s hl
      have hcont : cadenaOK (procesarBucle s) = true →
          cadenaOK (procesarContenido s) = true := by
        intro hb
        rw [contenido_eq]
        by_cases he : s.isEmpty = true
        · simp [he, cadenaOK, nodoNuevo]
        · simp [he, hb]
      cases s with
      | nil =>
          refine ⟨by rw [bucle_nil]; rfl, ?_, ?_⟩
          · rw [contenido_eq]
            simp [cadenaOK, nodoNuevo]
          · intro _
            simp [strip, List.rdropWhile]
      | cons c r =>
          have hlr : r.length ≤ N := by simpa using hl
          by_cases hesp : c = ' '
          · subst hesp
            obtain ⟨h1, h2, h3⟩ := ih r hlr
            refine ⟨by rw [bucle_espacio]; exact h1,
              hcont (by rw [bucle_espacio]; exact h1), ?_⟩
            rw [bucle_espacio, strip_cons_espacio _ _ (by decide)]
            exact h3
          · have hsig : ∀ resto2 : List Char, resto2.length ≤ N →
                cadenaOK (if strip resto2 = []
                  then [Nodo.mk 'ε' Tipo.terminal [] 0 true 0 0 []]
                  else procesarBucle resto2) = true := by
              intro resto2 hres
              by_cases hv : strip resto2 = []
              · simp [hv, cadenaOK]
              · rw [if_neg hv]
                exact (ih resto2 hres).1
            by_cases hficha : c = '$' ∨ c = 'R' ∨ c = '<'
            · have hb : cadenaOK (procesarBucle (c :: r)) = true := by
                rw [bucle_ficha c r hficha]
                simp [nodoNuevo, cadenaOK, accionOK, hsig r hlr]
              refine ⟨hb, hcont hb, ?_⟩
              rw [bucle_ficha c r hficha]
              intro habs
              cases habs
            · by_cases hbl : c = '\x7b'
              · subst hbl
                have hlen := escanear_longitud r 1
                have hint := (ih ((escanear r 1).1.dropLast)
                  (by simp [List.length_dropLast]; omega)).2.1
                have hb : cadenaOK (procesarBucle ('\x7b' :: r)) = true := by
                  rw [bucle_bloque]
                  simp [nodoNuevo, cadenaOK, accionOK, hint,
                    hsig _ (show (escanear r 1).2.length ≤ N by omega)]
                refine ⟨hb, hcont hb, ?_⟩
                rw [bucle_bloque]
                intro habs
                cases habs
              · have hb : cadenaOK (procesarBucle (c :: r)) = true := by
                  rw [bucle_otro c r hesp (by tauto) (by tauto) (by tauto) hbl]
                  simp [nodoNuevo, cadenaOK, accionOK, hsig r hlr]
                refine ⟨hb, hcont hb, ?_⟩
                rw [bucle_otro c r hesp (by tauto) (by tauto) (by tauto) hbl]
                intro habs
                cases habs


theorem rango_construccion :
    ∀ (N : Nat) (s : List Char), s.length ≤ N →
      rangoOK.rangoLista (procesarBucle s) = true ∧
      rangoOK.rangoLista (procesarContenido s) = true := by
  intro N
  induction N with
  | zero =>
      intro s hl
      have h0 : s = [] := List.length_eq_zero.1 (by omega)
      subst h0
      refine ⟨by rw [bucle_nil]; rfl, ?_⟩
      rw [contenido_eq]
      simp [rangoOK, rangoOK.rangoLista, nodoNuevo]
  | succ N ih =>
      intro s hl
      have hcont : rangoOK.rangoLista (procesarBucle s) = true →
          rangoOK.rangoLista (procesarContenido s) = true := by
        intro hb
        rw [contenido_eq]
        by_cases he : s.isEmpty = true
        · simp [he, rangoOK, rangoOK.rangoLista, nodoNuevo]
        · simp [he, hb]
      cases s with
      | nil =>
          refine ⟨by rw [bucle_nil]; rfl, ?_⟩
          rw [contenido_eq]
          simp [rangoOK, rangoOK.rangoLista, nodoNuevo]
      | cons c r =>
          have hlr : r.length ≤ N := by simpa using hl
          by_cases hesp : c = ' '
          · subst hesp
            have h1 := (ih r hlr).1
            exact ⟨by rw [bucle_espacio]; exact h1,
              hcont (by rw [bucle_espacio]; exact h1)⟩
          · have hsig : ∀ resto2 : List Char, resto2.length ≤ N →
                rangoOK.rangoLista (if strip resto2 = []
                  then [Nodo.mk 'ε' Tipo.terminal [] 0 true 0 0 []]
                  else procesarBucle resto2) = true := by
              intro resto2 hres
              by_cases hv : strip resto2 = []
              · simp [hv, rangoOK, rangoOK.rangoLista]
              · rw [if_neg hv]
                exact (ih resto2 hres).1
            by_cases hficha : c = '$' ∨ c = 'R' ∨ c = '<'
            · have hb : rangoOK.rangoLista (procesarBucle (c :: r)) = true := by
                rw [bucle_ficha c r hficha]
                simp [nodoNuevo, rangoOK, rangoOK.rangoLista, hsig r hlr]
              exact ⟨hb, hcont hb⟩
            · by_cases hbl : c = '\x7b'
              · subst hbl
                have hlen := escanear_longitud r 1
                have hint := (ih ((escanear r 1).1.dropLast)
                  (by simp [List.length_dropLast]; omega)).2
                have hb : rangoOK.rangoLista (procesarBucle ('\x7b' :: r)) = true := by
                  rw [bucle_bloque]
                  simp [nodoNuevo, rangoOK, rangoOK.rangoLista, hint,
                    hsig _ (show (escanear r 1).2.length ≤ N by omega)]
                exact ⟨hb, hcont hb⟩
              · have hb : rangoOK.rangoLista (procesarBucle (c :: r)) = true := by
                  rw [bucle_otro c r hesp (by tauto) (by tauto) (by tauto) hbl]
                  simp [nodoNuevo, rangoOK, rangoOK.rangoLista, hsig r hlr]
                exact ⟨hb, hcont hb⟩

theorem rango_construir (s : List Char) :
    rangoOK (construirArbol s) = true := by
  rw [construirArbol]
  have h := (rango_construccion
    (strip ((s.drop 1).dropLast)).length _ le_rfl).2
  simp only [List.drop_one] at h
  simp [nodoNuevo, rangoOK, rangoOK.rangoLista, h]



/-! ### Support for the claim-level theorems -/

/-- The `C` node holding a block's processed content always heads a chain
that ends in an `ε` leaf: empty content gets the explicit `ε` child, and
non-empty stripped content is handled by `forma_cadena`. -/
theorem forma_construir (r : List Char) :
    terminaEps (nodoNuevo 'C' Tipo.noTerminal
      (procesarContenido (strip r))) = true := by
  rw [contenido_eq]
  by_cases he : (strip r).isEmpty = true
  · rw [if_pos he]
    simp only [nodoNuevo]
    rw [terminaEps_mk1]
    simp [nodoNuevo]
  · rw [if_neg he]
    exact forma_cadena (strip r).length _ le_rfl
      (by rw [strip_idem]; simpa using he)

/-- On a string the validator accepts, slicing off the first and last
character loses no token: the accepted string starts with `\x7b` and ends
with `\x7d` up to surrounding spaces. -/
theorem filtrar_validada (s : List Char) (h : (validarSintaxis s).1 = true) :
    ((s.drop 1).dropLast).filter esFicha = s.filter esFicha := by
  obtain ⟨hh, hl⟩ := validar_estructura s h
  have hne : strip s ≠ [] := by
    intro h0
    rw [h0] at hh
    cases hh
  have hcab : ∀ c, s.head? = some c → esFicha c = false :=
    cabeza_no_ficha s hne (fun c hc => by rw [hh] at hc; cases hc; decide)
  have hult : ∀ c, s.getLast? = some c → esFicha c = false :=
    ultimo_no_ficha s hne (fun c hc => by rw [hl] at hc; cases hc; decide)
  have hult1 : ∀ c, (s.drop 1).getLast? = some c → esFicha c = false := by
    intro c hc
    simp only [List.drop_one] at hc
    apply hult
    cases s with
    | nil => cases hc
    | cons a r =>
        cases r with
        | nil => cases hc
        | cons b rr =>
            rw [getLast_de_sufijo [a] (b :: rr) (a :: b :: rr) rfl (by simp)]
            exact hc
  calc ((s.drop 1).dropLast).filter esFicha
      = (s.drop 1).filter esFicha := filtrar_sin_ultimo _ hult1
    _ = s.filter esFicha := filtrar_cola s hcab

/-- A terminal leaf exactly as `_procesar_contenido` creates it. -/
def hoja (c : Char) : Nodo := Nodo.mk c Tipo.terminal [] 0 true 0 0 []

/-- A chain node holding only the `ε` leaf, as the builder creates it. -/
def cEps : Nodo := nodoNuevo 'C' Tipo.noTerminal [hoja 'ε']

/-- The tree `_construir_arbol` builds for the input `\x7b $ R \x7d`. -/
def arbolDolarR : Nodo :=
  Nodo.mk 'P' Tipo.noTerminal
    [hoja '\x7b',
     Nodo.mk 'C' Tipo.noTerminal
       [Nodo.mk 'A' Tipo.noTerminal [hoja '$'] 0 true 0 0 [],
        Nodo.mk 'C' Tipo.noTerminal
          [Nodo.mk 'A' Tipo.noTerminal [hoja 'R'] 0 true 0 0 [],
           Nodo.mk 'C' Tipo.noTerminal [hoja 'ε'] 0 true 0 0 []] 0 true 0 0 []]
       0 true 0 0 [],
     hoja '\x7d'] 0 true 0 0 []

/-! ### The claims -/

/-- Claim C1 (amended): for every syntactically valid input the global
error list returned by `analizar_cadena` consists exactly of the
nesting-limit messages, one per node entered beyond depth 3; the semantic
diagnostics (insufficient balance, quota, no coins) are stored only in the
nodes' own `errores` fields and never reach `errores_globales`, so the
global list is not the concatenation of the tree's `errores` fields. -/
theorem c1_teorema (prev : List String) (s : List Char)
    (h : (validarSintaxis s).1 = true) :
    (analizarCadena prev s).globales =
      List.replicate (cuenta (construirArbol s) 1) msgNivelGlobal := by
  simp only [analizar_ok prev s h]
  rw [globales_decorar]
  simp

/-- Witness for C1: the empty block is accepted and yields the empty
global error list. -/
theorem c1_testigo :
    (validarSintaxis ("\x7b\x7d".toList)).1 = true ∧
    (analizarCadena [] ("\x7b\x7d".toList)).globales =
      List.replicate (cuenta (construirArbol ("\x7b\x7d".toList)) 1)
        msgNivelGlobal :=
  ⟨by decide, c1_teorema [] _ (by decide)⟩

/-- Counterexample to C1 as stated: on the valid input `\x7b $ R \x7d` the
purchase fails (balance 1 < 3), so the `A` node carries an
`InsufficientBalance` diagnostic, yet the returned global error list is
empty: the global list does not equal the concatenation of the nodes'
`errores` fields. -/
theorem c1_contraejemplo :
    (validarSintaxis ("\x7b $ R \x7d".toList)).1 = true ∧
    (analizarCadena [] ("\x7b $ R \x7d".toList)).globales = [] ∧
    erroresDelArbol (analizarCadena [] ("\x7b $ R \x7d".toList)) ≠ [] := by
  have ht : construirArbol ("\x7b $ R \x7d".toList) = arbolDolarR := by
    simp [construirArbol, procesarContenido, procesarBucle, escanear, strip,
      esEspacio, nodoNuevo, arbolDolarR, hoja, List.dropWhile,
      List.rdropWhile]
  refine ⟨by decide, ?_, ?_⟩
  · simp only [analizar_ok [] ("\x7b $ R \x7d".toList) (by decide), ht]
    simp [arbolDolarR, hoja, decorar, decorarP, decorarC, decorarA, seedNodo]
  · simp only [analizar_ok [] ("\x7b $ R \x7d".toList) (by decide), ht,
      erroresDelArbol]
    simp [arbolDolarR, hoja, decorar, decorarP, decorarC, decorarA, seedNodo,
      erroresArbol, erroresArbol.erroresLista, msgSaldo]


/-- Claim C2 (amended): for every accepted input whose stripped inner
content is brace-balanced, `analizar_cadena` returns a tree whose
terminal-leaf token sequence equals the input's `$`/`R`/`<` sequence in
order.  Without the balance proviso the claim fails: the block scan of
`_procesar_contenido` slices `bloque[1:-1]` even when no matching `\x7d`
was found, silently dropping a character. -/
theorem c2_teorema (prev : List String) (s : List Char)
    (h : (validarSintaxis s).1 = true)
    (hb : balanceado (strip ((s.drop 1).dropLast)) 0 = true) :
    (analizarCadena prev s).arbol.map tokensNodo =
      some (s.filter esFicha) := by
  simp only [analizar_ok prev s h, Option.map_some']
  rw [tokensNodo_decorar]
  simp only [construirArbol, nodoNuevo]
  rw [tokens_nodo_lista 'P' _ _ _ _ _ _ _ (by decide)]
  simp only [tokensNodo.tokensLista]
  rw [tokens_hoja_abre, tokens_hoja_cierra, tokens_nodo_C,
    (tokens_construccion (strip ((s.drop 1).dropLast)).length _ le_rfl hb).2,
    filtrar_strip, filtrar_validada s h]
  simp

/-- Witness for C2: on `\x7b $ \x7d` the single `$` token survives into
the tree. -/
theorem c2_testigo :
    ((validarSintaxis ("\x7b $ \x7d".toList)).1 = true ∧
      balanceado (strip ((("\x7b $ \x7d".toList).drop 1).dropLast)) 0 = true) ∧
    (analizarCadena [] ("\x7b $ \x7d".toList)).arbol.map tokensNodo =
      some (("\x7b $ \x7d".toList).filter esFicha) :=
  ⟨⟨by decide, by decide⟩, c2_teorema [] _ (by decide) (by decide)⟩

/-- Counterexample to C2 as stated: the input `\x7b \x7d \x7b $ \x7d` is
accepted by the validator, but its stripped inner content `\x7d \x7b $`
makes the brace scan run off the end, and `bloque[1:-1]` drops the `$`:
the returned tree holds no token at all while the input holds one. -/
theorem c2_contraejemplo :
    (validarSintaxis ("\x7b \x7d \x7b $ \x7d".toList)).1 = true ∧
    (analizarCadena [] ("\x7b \x7d \x7b $ \x7d".toList)).arbol.map
        tokensNodo ≠
      some (("\x7b \x7d \x7b $ \x7d".toList).filter esFicha) := by
  refine ⟨by decide, ?_⟩
  simp only [analizar_ok [] ("\x7b \x7d \x7b $ \x7d".toList) (by decide),
    Option.map_some']
  rw [tokensNodo_decorar]
  have hb : tokensNodo (construirArbol ("\x7b \x7d \x7b $ \x7d".toList)) = [] := by
    simp [construirArbol, procesarContenido, procesarBucle, escanear, strip,
      esEspacio, nodoNuevo, tokensNodo, tokensNodo.tokensLista, esFicha,
      List.dropWhile, List.rdropWhile]
  rw [hb]
  decide

/-- Claim C3 (amended): the tree built for any input has the shape
`P → \x7b C \x7d` with a well-formed `C` chain: every `C` node's children
list is `[]`, `[ε]` or `[A, C]`, and the top-level chain does end in an
`ε` leaf.  The original claim fails for nested blocks: a block whose
content is only spaces leaves its inner `C` node childless, because the
`if not contenido` test runs before spaces are skipped. -/
theorem c3_teorema (s : List Char) :
    ∃ c : Nodo,
      (construirArbol s).hijos =
        [nodoNuevo '\x7b' Tipo.terminal [], c,
         nodoNuevo '\x7d' Tipo.terminal []] ∧
      c.simbolo = 'C' ∧ cadenaOK c.hijos = true ∧ terminaEps c = true := by
  refine ⟨nodoNuevo 'C' Tipo.noTerminal
    (procesarContenido (strip ((s.drop 1).dropLast))), ?_, ?_, ?_, ?_⟩
  · simp [construirArbol, nodoNuevo]
  · simp [nodoNuevo]
  · simpa [nodoNuevo] using
      (cadena_ok_construccion (strip ((s.drop 1).dropLast)).length _
        le_rfl).2.1
  · exact forma_construir _


/-- Counterexample to C3 as stated: `\x7b \x7b \x7d \x7d` is accepted,
yet the built tree holds a childless `C` node (the inner block's content
is a single space, exhausted before any child is attached). -/
theorem c3_contraejemplo :
    (validarSintaxis ("\x7b \x7b \x7d \x7d".toList)).1 = true ∧
    hayCVacio (construirArbol ("\x7b \x7b \x7d \x7d".toList)) = true := by
  refine ⟨by decide, ?_⟩
  simp [construirArbol, procesarContenido, procesarBucle, escanear, strip,
    esEspacio, nodoNuevo, hayCVacio, hayCVacio.hayCVacioLista,
    List.dropWhile, List.rdropWhile]

/-- Claim C4: on every input the validator rejects, `analizar_cadena`
returns no tree and exactly one global diagnostic. -/
theorem c4_teorema (prev : List String) (s : List Char)
    (h : (validarSintaxis s).1 = false) :
    (analizarCadena prev s).arbol = none ∧
    (analizarCadena prev s).globales.length = 1 := by
  rw [analizar_fallo prev s h]
  refine ⟨rfl, ?_⟩
  rcases validar_casos s with h1 | ⟨_, h3⟩
  · rw [h1] at h
    simp at h
  · exact h3

/-- Witness for C4: the input `x` is rejected and yields no tree and one
diagnostic. -/
theorem c4_testigo :
    (validarSintaxis ("x".toList)).1 = false ∧
    (analizarCadena [] ("x".toList)).arbol = none ∧
    (analizarCadena [] ("x".toList)).globales.length = 1 :=
  ⟨by decide, c4_teorema [] _ (by decide)⟩

/-- Claim C9: `analizar_cadena` is a pure function of the input string:
the leftover `errores_globales` state from any earlier call is discarded
by the reset at the start of the call, so two calls on the same string
agree on everything, and a second call seeded with the first call's
global list returns exactly what a fresh analyzer would. -/
theorem c9_teorema (prev1 prev2 : List String) (s : List Char) :
    analizarCadena prev1 s = analizarCadena prev2 s ∧
    analizarCadena (analizarCadena prev1 s).globales s =
      analizarCadena [] s :=
  ⟨rfl, rfl⟩


/-- Claim C5: a node reached at nesting depth above 3 is cut off: it is
returned invalid with the nesting diagnostic appended and its children
untouched (no semantic evaluation below it), whatever its symbol and
children hold; and any accepted input whose tree makes the decoration
descend past depth 3 yields `esValida = false` overall. -/
theorem c5_teorema :
    (∀ (n : Nodo) (nivel : Nat) (pS pR : Int) (g : List String),
        3 < nivel →
        decorar n nivel pS pR g =
          (Nodo.mk n.simbolo n.tipo n.hijos n.saldo false nivel n.refrescos
             (n.errores ++ [msgNivelNodo nivel]), g ++ [msgNivelGlobal])) ∧
    (∀ (prev : List String) (s : List Char),
        (validarSintaxis s).1 = true → 3 ≤ prof (construirArbol s) →
        (analizarCadena prev s).esValida = false) := by
  refine ⟨fun n nivel pS pR g h3 => decorar_limite n nivel pS pR g h3, ?_⟩
  intro prev s h hp
  simp only [analizar_ok prev s h]
  rw [globales_decorar]
  have hc : 0 < cuenta (construirArbol s) 1 :=
    cuenta_pos (construirArbol s).peso _ le_rfl 1 (by omega)
  rcases hk : cuenta (construirArbol s) 1 with _ | k
  · omega
  · simp [List.replicate_succ]

/-- Witness for C5: decorating any node at depth 4 cuts off, and the
four-deep input `\x7b\x7b\x7b\x7b\x7d\x7d\x7d\x7d` is accepted but
analyzed invalid. -/
theorem c5_testigo :
    ((3:Nat) < 4 ∧
      decorar (hoja '$') 4 0 0 [] =
        (Nodo.mk '$' Tipo.terminal [] 0 false 4 0 [msgNivelNodo 4],
         [msgNivelGlobal])) ∧
    ((validarSintaxis ("\x7b\x7b\x7b\x7b\x7d\x7d\x7d\x7d".toList)).1 = true ∧
      3 ≤ prof (construirArbol ("\x7b\x7b\x7b\x7b\x7d\x7d\x7d\x7d".toList)) ∧
      (analizarCadena [] ("\x7b\x7b\x7b\x7b\x7d\x7d\x7d\x7d".toList)).esValida
        = false) := by
  have hp : 3 ≤ prof (construirArbol ("\x7b\x7b\x7b\x7b\x7d\x7d\x7d\x7d".toList)) := by
    simp [construirArbol, procesarContenido, procesarBucle, escanear, strip,
      esEspacio, nodoNuevo, prof, List.dropWhile, List.rdropWhile]
  refine ⟨⟨by decide, ?_⟩, by decide, hp, c5_teorema.2 [] _ (by decide) hp⟩
  have := c5_teorema.1 (hoja '$') 4 0 0 [] (by decide)
  simpa [hoja] using this

/-- Claim C6: on an `A → \x7b C \x7d` node as the builder creates it, the
inner `C` is decorated at depth + 1 with zero inherited balance and count,
the `A` node keeps the enclosing before-state `pS`, `pR` unchanged, and
its validity is the inner `C`'s validity. -/
theorem c6_teorema (t : Tipo) (l ci r : Nodo) (nivel : Nat) (pS pR : Int)
    (g : List String) (h : ¬ 3 < nivel) :
    decorar (nodoNuevo 'A' t [l, ci, r]) nivel pS pR g =
      (Nodo.mk 'A' t [l, (decorar ci (nivel + 1) 0 0 g).1, r] pS
         (decorar ci (nivel + 1) 0 0 g).1.valido nivel pR
         (decorar ci (nivel + 1) 0 0 g).1.errores,
       (decorar ci (nivel + 1) 0 0 g).2) := by
  rw [decorar_eq_A _ _ _ _ _ h (by simp [nodoNuevo]),
    decorarA_bloque _ _ _ _ _ l ci r (by simp [nodoNuevo])]
  simp [nodoNuevo]

/-- Witness for C6 at depth 1 with before-state (7, 2). -/
theorem c6_testigo :
    (¬ (3:Nat) < 1) ∧
    decorar (nodoNuevo 'A' Tipo.noTerminal [hoja '\x7b', cEps, hoja '\x7d'])
        1 7 2 [] =
      (Nodo.mk 'A' Tipo.noTerminal
         [hoja '\x7b', (decorar cEps 2 0 0 []).1, hoja '\x7d'] 7
         (decorar cEps 2 0 0 []).1.valido 1 2
         (decorar cEps 2 0 0 []).1.errores,
       (decorar cEps 2 0 0 []).2) :=
  ⟨by decide, c6_teorema Tipo.noTerminal (hoja '\x7b') cEps (hoja '\x7d')
    1 7 2 [] (by decide)⟩

/-- Claim C7: on an `A → R` node with before-balance `b` and
before-count `c`, the balance check runs strictly first: `b < 3` gives an
invalid node with the `InsufficientBalance` message and unchanged state;
otherwise `3 ≤ c` gives an invalid node with the `PurchaseQuotaExceeded`
message and unchanged state; otherwise the node is valid with balance
`b - 3` and count `c + 1`.  When both `b < 3` and `3 ≤ c` hold, the
recorded message is the balance one. -/
theorem c7_teorema (t : Tipo) (h0 : Nodo) (sal : Int) (v : Bool) (nl : Nat)
    (rf : Int) (e : List String) (nivel : Nat) (b c : Int)
    (g : List String) (h : ¬ 3 < nivel) (hR : h0.simbolo = 'R') :
    decorar (Nodo.mk 'A' t [h0] sal v nl rf e) nivel b c g =
      (if b < 3 then
         Nodo.mk 'A' t [h0] b false nivel c (e ++ [msgSaldo b])
       else if 3 ≤ c then
         Nodo.mk 'A' t [h0] b false nivel c (e ++ [msgRefrescos])
       else
         Nodo.mk 'A' t [h0] (b - 3) true nivel (c + 1) e, g) ∧
    (b < 3 → 3 ≤ c →
      (decorar (Nodo.mk 'A' t [h0] sal v nl rf e) nivel b c g).1.errores =
        e ++ [msgSaldo b]) := by
  have hd := decorarA_uno (Nodo.mk 'A' t [h0] sal v nl rf e) nivel b c g h0
    (by simp)
  rw [hR] at hd
  rw [decorar_eq_A _ _ _ _ _ h (by simp), hd]
  simp only [Nodo.simbolo_mk, Nodo.tipo_mk, Nodo.errores_mk,
    (by decide : (('R' : Char) = '$') = False),
    (by decide : (('R' : Char) = 'R') = True),
    if_true, if_false]
  constructor
  · split_ifs <;> rfl
  · intro hb hc
    rw [if_pos hb]
    rfl

/-- Witness for C7: with balance 2 and count 3 both checks would fail,
and the recorded message is the balance one. -/
theorem c7_testigo :
    ((¬ (3:Nat) < 1) ∧ (hoja 'R').simbolo = 'R') ∧
    (decorar (Nodo.mk 'A' Tipo.noTerminal [hoja 'R'] 0 true 0 0 []) 1 2 3 [] =
      (if (2:Int) < 3 then
         Nodo.mk 'A' Tipo.noTerminal [hoja 'R'] 2 false 1 3 ([] ++ [msgSaldo 2])
       else if (3:Int) ≤ 3 then
         Nodo.mk 'A' Tipo.noTerminal [hoja 'R'] 2 false 1 3 ([] ++ [msgRefrescos])
       else
         Nodo.mk 'A' Tipo.noTerminal [hoja 'R'] (2 - 3) true 1 (3 + 1) [], []) ∧
      ((2:Int) < 3 → (3:Int) ≤ 3 →
        (decorar (Nodo.mk 'A' Tipo.noTerminal [hoja 'R'] 0 true 0 0 [])
            1 2 3 []).1.errores = [] ++ [msgSaldo 2])) :=
  ⟨⟨by decide, by simp [hoja]⟩,
   c7_teorema Tipo.noTerminal (hoja 'R') 0 true 0 0 [] 1 2 3 [] (by decide)
     (by simp [hoja])⟩

/-- Claim C8: for every accepted input the returned tree's root balance is
0, whatever tokens the input holds: the chain always ends in the `ε`
production, whose rule resets balance and count to 0, and the `P` rule
copies the chain's final state. -/
theorem c8_teorema (prev : List String) (s : List Char)
    (h : (validarSintaxis s).1 = true) :
    (analizarCadena prev s).arbol.map Nodo.saldo = some 0 := by
  simp only [analizar_ok prev s h, Option.map_some']
  simp only [construirArbol]
  rw [decorar_eq_P _ 1 0 0 [] (by decide) (by simp [nodoNuevo]),
    decorarP_cadena _ 1 [] (nodoNuevo '\x7b' Tipo.terminal [])
      (nodoNuevo 'C' Tipo.noTerminal
        (procesarContenido (strip ((s.drop 1).dropLast))))
      [nodoNuevo '\x7d' Tipo.terminal []] (by simp [nodoNuevo])]
  simp only [Nodo.saldo_mk, nodoNuevo, Nodo.refrescos_mk, Option.some_inj]
  exact decorar_eps_saldo
    (Nodo.mk 'C' Tipo.noTerminal
      (procesarContenido (strip ((s.drop 1).dropLast))) 0 true 0 0 []).peso
    _ le_rfl 1 0 0 []
    (by simpa [nodoNuevo] using (forma_construir ((s.drop 1).dropLast)))
    (by decide)

/-- Witness for C8: the accepted input `\x7b $ \x7d` ends with balance 1
before the `ε` reset, yet the root reports balance 0. -/
theorem c8_testigo :
    (validarSintaxis ("\x7b $ \x7d".toList)).1 = true ∧
    (analizarCadena [] ("\x7b $ \x7d".toList)).arbol.map Nodo.saldo =
      some 0 :=
  ⟨by decide, c8_teorema [] _ (by decide)⟩

/-- Claim C10: every node of any tree `analizar_cadena` returns satisfies
`0 ≤ saldo` and `0 ≤ refrescos_comprados ≤ 3`: the builder creates all
fields at 0 and every decoration rule keeps the bounds. -/
theorem c10_teorema (prev : List String) (s : List Char) (a : Nodo)
    (h : (analizarCadena prev s).arbol = some a) :
    rangoOK a = true := by
  by_cases hv : (validarSintaxis s).1 = true
  · rw [analizar_ok prev s hv] at h
    simp only [Option.some_inj] at h
    rw [← h]
    exact decorar_rango (construirArbol s).peso _ le_rfl 1 0 0 []
      (rango_construir s) le_rfl le_rfl (by decide)
  · rw [analizar_fallo prev s (by simpa using hv)] at h
    cases h

/-- Witness for C10 on the accepted input `\x7b\x7d`. -/
theorem c10_testigo :
    (analizarCadena [] ("\x7b\x7d".toList)).arbol =
      some (decorar (construirArbol ("\x7b\x7d".toList)) 1 0 0 []).1 ∧
    rangoOK (decorar (construirArbol ("\x7b\x7d".toList)) 1 0 0 []).1 =
      true := by
  have hh : (analizarCadena [] ("\x7b\x7d".toList)).arbol =
      some (decorar (construirArbol ("\x7b\x7d".toList)) 1 0 0 []).1 := by
    rw [analizar_ok [] ("\x7b\x7d".toList) (by decide)]
  exact ⟨hh, c10_teorema [] _ _ hh⟩

end MaquinaRefrescos
